import Mathlib

/-!
Verification of the EJB static-analysis and context-assembly pipeline
(`ejb_parser` / `ejb_rag_builder`): a shallow embedding of the Python code
into Lean 4, followed by theorems settling the specification claims.

Modelling conventions:
* File contents are `String`s; all scanning works on `String.data : List Char`.
* The project file system is a list of `(path, content?)` pairs; `content = none`
  models a file whose read raises (caught and skipped by the Python code).
  Paths are modelled as plain file names.
* Python `dict`s are association lists with in-place update (`upd`), matching
  insertion-order semantics.  Python `set`s of strings are modelled as
  deduplicated lists (set iteration order is interpreter-defined; no claim
  below depends on it).
* Each regular expression of the source is hand-compiled to an executable
  matcher with Python `re` semantics (leftmost search, greedy quantifiers,
  non-overlapping `findall`, ASCII `\w`/`\s`).
-/

/-! ## Character classes and basic string scanning -/

/-- Python `\w` (ASCII range, which covers all inputs of interest). -/
def isWordChar (c : Char) : Bool := c.isAlphanum || c = '_'

/-- Python `\s`: space, tab, newline, carriage return, vertical tab, form feed. -/
def pyIsSpace (c : Char) : Bool :=
  c = ' ' || c = '\t' || c = '\n' || c = '\r' || c = '\x0b' || c = '\x0c'

/-- Is the list `pre` a prefix of `l`? -/
def isPrefixL : List Char → List Char → Bool
  | [], _ => true
  | _ :: _, [] => false
  | a :: as, b :: bs => a = b && isPrefixL as bs

/-- Python substring test `sub in hay`. -/
def containsL (hay sub : List Char) : Bool :=
  isPrefixL sub hay ||
    (match hay with
     | [] => false
     | _ :: t => containsL t sub)

/-- Python `sub in s` on strings. -/
def strContains (s sub : String) : Bool := containsL s.data sub.data

/-- Does `l` end with `s`? -/
def endsWithL (l s : List Char) : Bool := isPrefixL s.reverse l.reverse

/-- Python `s.endswith(sub)`. -/
def strEndsWith (s sub : String) : Bool := endsWithL s.data sub.data

/-- Match a literal, returning the rest of the input. -/
def matchLit (lit l : List Char) : Option (List Char) :=
  if isPrefixL lit l then some (l.drop lit.length) else none

/-- Require at least one Python whitespace character, then consume the maximal
whitespace run (sound for `\s+` whenever the following token cannot start with
whitespace). -/
def spaces1 (l : List Char) : Option (List Char) :=
  match l with
  | c :: _ => if pyIsSpace c then some (l.dropWhile pyIsSpace) else none
  | [] => none

/-- Maximal `\w+` run; fails on empty. -/
def wordRun1 (l : List Char) : Option (List Char × List Char) :=
  match l with
  | c :: rest =>
    if isWordChar c then some (c :: rest.takeWhile isWordChar, rest.dropWhile isWordChar)
    else none
  | [] => none

/-- Python `str.strip()`. -/
def stripL (l : List Char) : List Char :=
  ((l.dropWhile pyIsSpace).reverse.dropWhile pyIsSpace).reverse

/-- Python `str.split(sep)` for a single-character separator (keeps empty parts). -/
def splitOnChar (sep : Char) : List Char → List (List Char)
  | [] => [[]]
  | c :: t =>
    if c = sep then [] :: splitOnChar sep t
    else
      match splitOnChar sep t with
      | h :: r => (c :: h) :: r
      | [] => [[c]]

/-- Python `str.split()` (split on whitespace runs, no empty parts); fuelled. -/
def splitWSGo : Nat → List Char → List (List Char)
  | 0, _ => []
  | fuel + 1, l =>
    match l.dropWhile pyIsSpace with
    | [] => []
    | l2 =>
      let w := l2.takeWhile (fun c => !(pyIsSpace c))
      w :: splitWSGo fuel (l2.drop w.length)

def splitWS (l : List Char) : List (List Char) := splitWSGo (l.length + 1) l

/-- Python `str.replace(old, new)` (all occurrences, left to right); fuelled.
Never called with an empty `old`. -/
def replaceAllGo : Nat → List Char → List Char → List Char → List Char
  | 0, _, _, s => s
  | fuel + 1, old, new, s =>
    if isPrefixL old s then new ++ replaceAllGo fuel old new (s.drop old.length)
    else
      match s with
      | [] => []
      | c :: t => c :: replaceAllGo fuel old new t

def pyReplace (s old new : String) : String :=
  if old.data.isEmpty then s
  else String.mk (replaceAllGo (s.data.length + 1) old.data new.data s.data)

/-- Python `name.split('.')[-1]`. -/
def simpleLast (s : String) : String :=
  String.mk ((splitOnChar '.' s.data).getLastD [])

/-- Python `s.replace('<', '').replace('>', '')`. -/
def stripAngleBrackets (s : String) : String :=
  String.mk (s.data.filter (fun c => !(c = '<') && !(c = '>')))

/-- Keep-first deduplication (model of `set(...)` over strings). -/
def dedupFirstGo (seen : List String) : List String → List String
  | [] => []
  | x :: t => if seen.contains x then dedupFirstGo seen t else x :: dedupFirstGo (x :: seen) t

/-- Python `x or default` on an optional string (`None` and `""` are falsy). -/
def pyOrStr (o : Option String) (d : String) : String :=
  match o with
  | none => d
  | some s => if s = "" then d else s

/-! ## Compiled regular expressions of `EJBParser`

Each matcher is the hand-compilation of one `re` pattern appearing in the
source, with Python semantics (leftmost search, greedy quantifiers,
non-overlapping `findall`). -/

/-- `[\w.]` character class. -/
def isWordDot (c : Char) : Bool := isWordChar c || c = '.'

/-- `[\w.*]` character class. -/
def isWordDotStar (c : Char) : Bool := isWordChar c || c = '.' || c = '*'

/-- Try `package\s+([\w.]+)\s*;` at the head of `l`; return the captured group. -/
def matchPackageAt (l : List Char) : Option (List Char) :=
  match matchLit "package".data l with
  | none => none
  | some r =>
    match spaces1 r with
    | none => none
    | some r2 =>
      let g := r2.takeWhile isWordDot
      if g.isEmpty then none
      else
        match (r2.dropWhile isWordDot).dropWhile pyIsSpace with
        | ';' :: _ => some g
        | _ => none

/-- `re.search(r'package\s+([\w.]+)\s*;', content)`: first match, captured group. -/
def findPackageL (l : List Char) : Option (List Char) :=
  match matchPackageAt l with
  | some g => some g
  | none =>
    match l with
    | [] => none
    | _ :: t => findPackageL t

/-- Package of a file per `_build_symbol_table` / `_identify_interfaces`
(`''` when no package declaration matches). -/
def packageOf (content : String) : String :=
  match findPackageL content.data with
  | some g => String.mk g
  | none => ""

/-- `(class|interface|enum)\s+(\w+)`: return the captured name and the rest. -/
def matchKindName (l : List Char) : Option (List Char × List Char) :=
  let tryKind := fun (kw : List Char) =>
    match matchLit kw l with
    | none => none
    | some r =>
      match spaces1 r with
      | none => none
      | some r2 => wordRun1 r2
  tryKind "class".data <|> tryKind "interface".data <|> tryKind "enum".data

/-- Greedy optional modifier `(?:kw\s+)?` followed by continuation `k`. -/
def tryModThen (kw : List Char) (k : List Char → Option (List Char × List Char))
    (l : List Char) : Option (List Char × List Char) :=
  (match matchLit kw l with
   | some r =>
     match spaces1 r with
     | some r2 => k r2
     | none => none
   | none => none) <|> k l

/-- One attempt of the declaration pattern
`(?:public\s+)?(?:abstract\s+)?(?:final\s+)?(class|interface|enum)\s+(\w+)`. -/
def matchClassDeclAt : List Char → Option (List Char × List Char) :=
  tryModThen "public".data (tryModThen "abstract".data (tryModThen "final".data matchKindName))

/-- `re.findall` of the declaration pattern, keeping the captured names; fuelled. -/
def findClassDeclsGo : Nat → List Char → List (List Char)
  | 0, _ => []
  | fuel + 1, l =>
    match matchClassDeclAt l with
    | some (name, rest) => name :: findClassDeclsGo fuel rest
    | none =>
      match l with
      | [] => []
      | _ :: t => findClassDeclsGo fuel t

/-- All `class|interface|enum` declaration names of a file. -/
def findClassDecls (content : String) : List String :=
  (findClassDeclsGo (content.data.length + 1) content.data).map String.mk

/-- Is the next character (if any) a word character? (for `\b` checks). -/
def headIsWord (l : List Char) : Bool :=
  match l with
  | c :: _ => isWordChar c
  | [] => false

/-- Try `\binterface\s+NAME\b` at the head of `l` (`prevW`: previous character
is a word character). -/
def ifaceDeclAt (name : List Char) (prevW : Bool) (l : List Char) : Bool :=
  if prevW then false
  else
    match matchLit "interface".data l with
    | some r =>
      match spaces1 r with
      | some r2 =>
        match matchLit name r2 with
        | some r3 => !(headIsWord r3)
        | none => false
      | none => false
    | none => false

def searchInterfaceDeclGo (name : List Char) : Bool → List Char → Bool
  | prevW, [] => ifaceDeclAt name prevW []
  | prevW, c :: t => ifaceDeclAt name prevW (c :: t) || searchInterfaceDeclGo name (isWordChar c) t

/-- `re.search(r'\binterface\s+' + name + r'\b', content)` as a Boolean. -/
def searchInterfaceDecl (name : String) (content : String) : Bool :=
  searchInterfaceDeclGo name.data false content.data

/-- `interface\s+NAME\b` at the head; returns the number of consumed characters. -/
def matchIfaceTail (name l : List Char) : Option Nat :=
  match matchLit "interface".data l with
  | none => none
  | some r =>
    let sp := (r.takeWhile pyIsSpace).length
    if sp = 0 then none
    else
      match matchLit name (r.drop sp) with
      | some r3 => if headIsWord r3 then none else some (9 + sp + name.length)
      | none => none

/-- Lengths `m, m-1, …, 1` (the order a greedy `+` quantifier backtracks through). -/
def greedyLens (m : Nat) : List Nat := (List.range m).map (fun i => m - i)

/-- Backtracking matcher for `(?:@[^\n]+\s+)*\binterface\s+NAME\b` at the head;
returns the number of consumed characters.  Greedy: annotation iterations are
tried before the bare `interface` alternative, with maximal `[^\n]+` and `\s+`
runs first. -/
def matchAnnStarGo (name : List Char) : Nat → Bool → List Char → Option Nat
  | 0, _, _ => none
  | fuel + 1, prevW, l =>
    let iter : Option Nat :=
      match l with
      | '@' :: rest =>
        let m := (rest.takeWhile (fun c => !(c = '\n'))).length
        ((greedyLens m).findSome? (fun j =>
          let afterJ := rest.drop j
          (greedyLens ((afterJ.takeWhile pyIsSpace).length)).findSome? (fun k =>
            (matchAnnStarGo name fuel false (afterJ.drop k)).map (fun n => j + k + n)))).map
          (· + 1)
      | _ => none
    match iter with
    | some n => some n
    | none => if prevW then none else matchIfaceTail name l

/-- `re.search` of `(?:@[^\n]+\s+)*\binterface\s+NAME\b`: the matched text. -/
def searchAnnDecl (name : List Char) : Bool → List Char → Option (List Char)
  | _, [] => none
  | prevW, c :: t =>
    match matchAnnStarGo name ((c :: t).length + 1) prevW (c :: t) with
    | some n => some ((c :: t).take n)
    | none => searchAnnDecl name (isWordChar c) t

/-- One match of `@(\w+(?:\(\))?[^@\n]*)`: captured group and rest. -/
def annFindAt (l : List Char) : Option (List Char × List Char) :=
  match l with
  | '@' :: rest =>
    match wordRun1 rest with
    | none => none
    | some (w, r2) =>
      let pr : List Char × List Char :=
        match r2 with
        | '(' :: ')' :: r3 => (['(', ')'], r3)
        | _ => ([], r2)
      let tailRun := pr.2.takeWhile (fun c => !(c = '@') && !(c = '\n'))
      some (w ++ pr.1 ++ tailRun, pr.2.drop tailRun.length)
  | _ => none

/-- `re.findall(r'@(\w+(?:\(\))?[^@\n]*)', text)`; fuelled. -/
def annFindAllGo : Nat → List Char → List (List Char)
  | 0, _ => []
  | fuel + 1, l =>
    match annFindAt l with
    | some (g, rest) => g :: annFindAllGo fuel rest
    | none =>
      match l with
      | [] => []
      | _ :: t => annFindAllGo fuel t

/-- `EJBParser._extract_annotations`. -/
def extractAnnotations (content : String) (class_name : String) : List String :=
  match searchAnnDecl class_name.data false content.data with
  | none => []
  | some text =>
    (annFindAllGo (text.length + 1) text).map (fun g => String.mk ('@' :: stripL g))

/-! ## Method-signature extraction (`_extract_methods`) -/

/-- Try the optional return-type group
`(?:\b(\w+(?:<[^>]+>)?(?:\[\])?)\s+)?` at the head; on success return the
captured group text and the rest after `\s+`.  (As the group's alternatives
are separated by the mandatory `\s+` against disjoint character classes, the
greedy committed parse is exactly Python's backtracking behaviour.) -/
def matchReturnGroup (prevW : Bool) (l : List Char) : Option (List Char × List Char) :=
  if prevW then none
  else
    match wordRun1 l with
    | none => none
    | some (w, r) =>
      let g1 : List Char × List Char :=
        match r with
        | '<' :: r2 =>
          let inner := r2.takeWhile (fun c => !(c = '>'))
          if inner.isEmpty then (w, '<' :: r2)
          else
            match r2.drop inner.length with
            | '>' :: r3 => (w ++ '<' :: (inner ++ ['>']), r3)
            | _ => (w, '<' :: r2)
        | _ => (w, r)
      let g2 : List Char × List Char :=
        match g1.2 with
        | '[' :: ']' :: r3 => (g1.1 ++ ['[', ']'], r3)
        | _ => g1
      match spaces1 g2.2 with
      | some r4 => some (g2.1, r4)
      | none => none

/-- The tail `(?:\s+throws\s+[^{;]+)?[;{]` after the closing parenthesis;
returns the rest after the match. -/
def matchMethodEnd (r : List Char) : Option (List Char) :=
  let withThrows : Option (List Char) :=
    match r with
    | c :: _ =>
      if pyIsSpace c then
        match matchLit "throws".data (r.dropWhile pyIsSpace) with
        | some r6 =>
          match r6 with
          | c2 :: _ =>
            if pyIsSpace c2 then
              let d := (r6.takeWhile (fun x => !(x = '{') && !(x = ';'))).length
              if 2 ≤ d then
                match r6.drop d with
                | c3 :: r8 => if c3 = ';' || c3 = '{' then some r8 else none
                | [] => none
              else none
            else none
          | [] => none
        | none => none
      else none
    | [] => none
  withThrows <|>
    (match r with
     | c :: r5 => if c = ';' || c = '{' then some r5 else none
     | [] => none)

/-- The mandatory part `(\w+)\s*\(([^)]*)\)` plus `matchMethodEnd`;
returns (name, parameters, rest). -/
def matchMethodCore (l : List Char) : Option (List Char × List Char × List Char) :=
  match wordRun1 l with
  | none => none
  | some (nm, r2) =>
    match r2.dropWhile pyIsSpace with
    | '(' :: r3 =>
      let ps := r3.takeWhile (fun c => !(c = ')'))
      match r3.drop ps.length with
      | ')' :: r4 =>
        match matchMethodEnd r4 with
        | some rest => some (nm, ps, rest)
        | none => none
      | _ => none
    | _ => none

/-- One attempt of the full method pattern
`(?:\b(\w+(?:<[^>]+>)?(?:\[\])?)\s+)?(\w+)\s*\(([^)]*)\)(?:\s+throws\s+[^{;]+)?[;{]`
at the head: optional group 1, name, raw parameter list, rest. -/
def matchMethodAt (prevW : Bool) (l : List Char) :
    Option (Option (List Char) × List Char × List Char × List Char) :=
  match matchReturnGroup prevW l with
  | some (g, r) =>
    (match matchMethodCore r with
     | some (nm, ps, rest) => some (some g, nm, ps, rest)
     | none =>
       match matchMethodCore l with
       | some (nm, ps, rest) => some (none, nm, ps, rest)
       | none => none)
  | none =>
    match matchMethodCore l with
    | some (nm, ps, rest) => some (none, nm, ps, rest)
    | none => none

structure MethodSig where
  return_type : String
  name : String
  parameters : String
deriving DecidableEq, Repr

/-- Names filtered out by `_extract_methods`. -/
def controlFlowNames : List String := ["class", "interface", "if", "while", "for", "catch"]

/-- `re.finditer` loop of `_extract_methods`; fuelled scan over the content. -/
def extractMethodsGo : Nat → Bool → List Char → List MethodSig
  | 0, _, _ => []
  | fuel + 1, prevW, l =>
    match matchMethodAt prevW l with
    | some (g1, nm, ps, rest) =>
      let ms := extractMethodsGo fuel false rest
      if controlFlowNames.contains (String.mk nm) then ms
      else
        { return_type := pyOrStr (g1.map String.mk) "void",
          name := String.mk nm,
          parameters := String.mk (stripL ps) } :: ms
    | none =>
      match l with
      | [] => []
      | c :: t => extractMethodsGo fuel (isWordChar c) t

/-- `EJBParser._extract_methods`. -/
def extractMethods (content : String) : List MethodSig :=
  extractMethodsGo (content.data.length + 1) false content.data

/-! ## Implements-clause scan, imports, and the validator's naming pattern -/

/-- Occurrence of `\bNAME\b` inside the `[^{]*` window (the character before a
candidate position is always a non-word character: either whitespace from
`\s+` or the preceding window character, tracked via `prevW`). -/
def wordOccursGo (name : List Char) : Bool → List Char → Bool
  | prevW, [] => !prevW && isPrefixL name [] && !(headIsWord ([].drop name.length))
  | prevW, c :: t =>
    (!prevW && isPrefixL name (c :: t) && !(headIsWord ((c :: t).drop name.length))) ||
      wordOccursGo name (isWordChar c) t

/-- Try `implements\s+[^{]*\bNAME\b` at the head of `l`. -/
def implementsAt (name : List Char) (l : List Char) : Bool :=
  match matchLit "implements".data l with
  | none => false
  | some r =>
    match r with
    | c :: _ =>
      pyIsSpace c &&
        (let r2 := r.dropWhile pyIsSpace
         wordOccursGo name false (r2.takeWhile (fun x => !(x = '{'))))
    | [] => false

def searchImplementsGo (name : List Char) : List Char → Bool
  | [] => false
  | c :: t => implementsAt name (c :: t) || searchImplementsGo name t

/-- `re.search(rf'implements\s+[^{{]*\b{name}\b', content)` as a Boolean. -/
def searchImplements (name : String) (content : String) : Bool :=
  searchImplementsGo name.data content.data

/-- One match of `import\s+([\w.*]+)\s*;`: captured group and rest. -/
def matchImportAt (l : List Char) : Option (List Char × List Char) :=
  match matchLit "import".data l with
  | none => none
  | some r =>
    match spaces1 r with
    | none => none
    | some r2 =>
      let g := r2.takeWhile isWordDotStar
      if g.isEmpty then none
      else
        match (r2.drop g.length).dropWhile pyIsSpace with
        | ';' :: rest => some (g, rest)
        | _ => none

/-- `re.findall(r'import\s+([\w.*]+)\s*;', content)`; fuelled. -/
def findImportsGo : Nat → List Char → List (List Char)
  | 0, _ => []
  | fuel + 1, l =>
    match matchImportAt l with
    | some (g, rest) => g :: findImportsGo fuel rest
    | none =>
      match l with
      | [] => []
      | _ :: t => findImportsGo fuel t

/-- Import set of a file (`set(re.findall(...))`, modelled keep-first). -/
def importsOfContent (content : String) : List String :=
  dedupFirstGo [] ((findImportsGo (content.data.length + 1) content.data).map String.mk)

/-- Suffix alternation of the validator's naming pattern. -/
def validatorSuffixes : List String := ["Remote", "Local", "Service", "DAO"]

/-- Try `\binterface\s+\w+(?:Remote|Local|Service|DAO)\b` at the head: the
maximal word run after `interface\s+` must end in a suffix, strictly longer
than the suffix itself. -/
def namingIfaceAt (prevW : Bool) (l : List Char) : Bool :=
  if prevW then false
  else
    match matchLit "interface".data l with
    | none => false
    | some r =>
      match r with
      | c :: _ =>
        pyIsSpace c &&
          (let w := (r.dropWhile pyIsSpace).takeWhile isWordChar
           validatorSuffixes.any (fun s => endsWithL w s.data && s.data.length < w.length))
      | [] => false

def searchNamingIfaceGo : Bool → List Char → Bool
  | prevW, [] => namingIfaceAt prevW []
  | prevW, c :: t => namingIfaceAt prevW (c :: t) || searchNamingIfaceGo (isWordChar c) t

/-- `re.search(r'\binterface\s+\w+(?:Remote|Local|Service|DAO)\b', content)`. -/
def searchNamingIface (content : String) : Bool :=
  searchNamingIfaceGo false content.data

/-! ## Data model: files, dictionaries, parser state -/

/-- A project file: a path (modelled as a plain name) and its content;
`none` models a file whose read raises (caught by the Python code). -/
structure JFile where
  path : String
  content : Option String
deriving DecidableEq, Repr

/-- A project tree, in `rglob` traversal order. -/
abbrev FS := List JFile

/-- Best-effort read of a file (`open(...)` with exceptions caught). -/
def readFS (fs : FS) (p : String) : Option String :=
  match fs.find? (fun f => f.path == p) with
  | some f => f.content
  | none => none

/-- `path.rglob("*.java")`. -/
def javaFilesOf (fs : FS) : List JFile :=
  fs.filter (fun f => strEndsWith f.path ".java")

/-- Python-`dict` update: overwrite in place if the key exists, else append. -/
def upd {α : Type} (d : List (String × α)) (k : String) (v : α) : List (String × α) :=
  if d.any (fun kv => kv.1 == k) then
    d.map (fun kv => if kv.1 == k then (k, v) else kv)
  else d ++ [(k, v)]

/-- A sequence of `dict` updates. -/
def updAll {α : Type} (d : List (String × α)) (ps : List (String × α)) : List (String × α) :=
  ps.foldl (fun d p => upd d p.1 p.2) d

/-- `dict` lookup. -/
def dlookup {α : Type} (d : List (String × α)) (k : String) : Option α :=
  (d.find? (fun kv => kv.1 == k)).map (fun kv => kv.2)

/-- Key sequence of a `dict`. -/
def dkeys {α : Type} (d : List (String × α)) : List String := d.map (fun kv => kv.1)

/-- `EJBInterfaceInfo` of `ejb_parser` (field for field). -/
structure EJBInterfaceInfo where
  id : String
  interface_name : String
  bean_class : Option String
  file_path : String
  package : String
  annotations : List String
  interface_type : String
  methods : List MethodSig
  related_dtos : List String
  related_entities : List String
deriving DecidableEq, Repr

/-- Mutable state of an `EJBParser` instance. -/
structure ParserState where
  symbol_table : List (String × String)
  interfaces : List EJBInterfaceInfo
  all_imports : List (String × List String)
deriving DecidableEq, Repr

/-- State of a freshly constructed `EJBParser`. -/
def initState : ParserState := { symbol_table := [], interfaces := [], all_imports := [] }

/-! ## Pass 1: `_build_symbol_table` -/

/-- `f"{package}.{class_name}" if package else class_name`. -/
def qualifiedName (pkg name : String) : String :=
  if pkg = "" then name else pkg ++ "." ++ name

/-- Symbol-table entries contributed by one file (simple name then full name,
per declaration, in declaration order). -/
def symEntriesOfFile (f : JFile) : List (String × String) :=
  match f.content with
  | none => []
  | some c =>
    (findClassDecls c).flatMap (fun n => [(n, f.path), (qualifiedName (packageOf c) n, f.path)])

/-- All symbol-table insertions of one `_build_symbol_table` run. -/
def symEntries (fs : FS) : List (String × String) :=
  (javaFilesOf fs).flatMap symEntriesOfFile

def buildSymbolTable (fs : FS) (s : ParserState) : ParserState :=
  { s with symbol_table := updAll s.symbol_table (symEntries fs) }

/-! ## Pass 2: `_analyze_imports` -/

/-- The `all_imports[file_path] = imports` assignments of one run: one per
simple-name symbol whose file reads successfully. -/
def importEntries (fs : FS) (tbl : List (String × String)) : List (String × List String) :=
  tbl.filterMap (fun kp =>
    if kp.1.data.contains '.' then none
    else (readFS fs kp.2).map (fun c => (kp.2, importsOfContent c)))

def analyzeImports (fs : FS) (s : ParserState) : ParserState :=
  { s with all_imports := updAll s.all_imports (importEntries fs s.symbol_table) }

/-! ## Pass 3: `_identify_interfaces` -/

def EJB_ANNOTATIONS : List String :=
  ["Remote", "Local", "Stateless", "Stateful", "Singleton", "MessageDriven", "EJB", "EJBs"]

/-- `_is_ejb_annotation` (case-insensitive substring test). -/
def isEjbAnnotation (a : String) : Bool :=
  EJB_ANNOTATIONS.any (fun e =>
    containsL (a.data.map Char.toUpper) (e.data.map Char.toUpper))

/-- The five naming-convention patterns `.*Remote$`, `.*Local$`, `.*Service$`,
`.*DAO$`, `.*Repository$`, represented by their suffixes. -/
def INTERFACE_PATTERNS : List String := ["Remote", "Local", "Service", "DAO", "Repository"]

/-- `re.search(r'.*SUFFIX$', name)`: the suffix ends at the end of the string
or just before a single trailing newline (`$` semantics). -/
def reSuffix (name sfx : String) : Bool :=
  endsWithL name.data sfx.data || endsWithL name.data (sfx.data ++ ['\n'])

/-- The `interface_type` cascade of `_identify_interfaces` (annotation checks
first, then the naming-convention loop with `break`). -/
def namingTypeLoop : List String → String → String
  | [], _ => "Unknown"
  | p :: ps, name =>
    if reSuffix name p then
      if strContains name "Remote" then "Remote"
      else if strContains name "Local" then "Local"
      else "Business"
    else namingTypeLoop ps name

def interfaceTypeOf (annotations : List String) (class_name : String) : String :=
  if annotations.contains "@Remote" || annotations.any (fun a => strContains a "Remote") then
    "Remote"
  else if annotations.contains "@Local" || annotations.any (fun a => strContains a "Local") then
    "Local"
  else namingTypeLoop INTERFACE_PATTERNS class_name

/-- The `is_ejb` qualification test. -/
def isEjbCandidate (annotations : List String) (class_name : String) : Bool :=
  annotations.any isEjbAnnotation ||
    INTERFACE_PATTERNS.any (fun p => reSuffix class_name p)

/-- The record appended for a symbol-table item `(class_name, file_path)`, if
any: the file must read, contain an `interface class_name` declaration,
qualify as EJB and be unseen. -/
def idNew (fs : FS) (seen : List String) (kp : String × String) : Option EJBInterfaceInfo :=
  if kp.1.data.contains '.' then none
  else
    match readFS fs kp.2 with
    | none => none
    | some c =>
      if !(searchInterfaceDecl kp.1 c) then none
      else
        let pkg := packageOf c
        let anns := extractAnnotations c kp.1
        if isEjbCandidate anns kp.1 && !(seen.contains kp.1) then
          some
            { id := qualifiedName pkg kp.1, interface_name := kp.1, bean_class := none,
              file_path := kp.2, package := pkg, annotations := anns,
              interface_type := interfaceTypeOf anns kp.1, methods := extractMethods c,
              related_dtos := [], related_entities := [] }
        else none

def idStep (fs : FS) (acc : List String × List EJBInterfaceInfo) (kp : String × String) :
    List String × List EJBInterfaceInfo :=
  match idNew fs acc.1 kp with
  | some rec0 => (kp.1 :: acc.1, acc.2 ++ [rec0])
  | none => acc

def identifyInterfaces (fs : FS) (s : ParserState) : ParserState :=
  { s with interfaces := (s.symbol_table.foldl (idStep fs) ([], s.interfaces)).2 }

/-! ## Pass 4: `_link_beans_to_interfaces` -/

def beanCandidates (interface_name : String) : List String :=
  [interface_name ++ "Bean", interface_name ++ "Impl", interface_name ++ "EJB",
   pyReplace interface_name "Remote" "Bean", pyReplace interface_name "Local" "Bean",
   pyReplace interface_name "Service" "ServiceImpl", pyReplace interface_name "DAO" "DAOImpl"]

/-- Strategy 1: first candidate present in the symbol table. -/
def probeNaming (tbl : List (String × String)) (interface_name : String) : Option String :=
  (beanCandidates interface_name).find? (fun c => (dlookup tbl c).isSome)

/-- Strategy 2: first simple-name symbol whose file has an `implements`
clause naming the interface. -/
def implScanFind (fs : FS) (tbl : List (String × String)) (interface_name : String) :
    Option String :=
  (tbl.find? (fun kp =>
    !(kp.1.data.contains '.') &&
      (match readFS fs kp.2 with
       | none => false
       | some c => searchImplements interface_name c))).map (fun kp => kp.1)

/-- The `bean_class` after one linking pass, given its previous value. -/
def linkBeanName (fs : FS) (tbl : List (String × String)) (interface_name : String)
    (prev : Option String) : Option String :=
  let b1 :=
    match probeNaming tbl interface_name with
    | some c => some c
    | none => prev
  match b1 with
  | none => implScanFind fs tbl interface_name
  | some x => some x

def linkRec (fs : FS) (tbl : List (String × String)) (r : EJBInterfaceInfo) :
    EJBInterfaceInfo :=
  { r with bean_class := linkBeanName fs tbl r.interface_name r.bean_class }

def linkBeans (fs : FS) (s : ParserState) : ParserState :=
  { s with interfaces := s.interfaces.map (linkRec fs s.symbol_table) }

/-! ## Pass 5: `_find_related_classes` -/

def dtoKeywords : List String := ["DTO", "Dto", "Data", "Value", "VO", "Model"]

/-- The source lists `'Entity'` twice; kept verbatim. -/
def entityKeywords : List String := ["Entity", "Persistable", "Table", "JPA", "Entity"]

def hasKw (kws : List String) (simple_name : String) : Bool :=
  kws.any (fun kw => strContains simple_name kw)

/-- Append if not already present (the `if x not in xs: xs.append(x)` idiom). -/
def addIfNew (xs : List String) (n : String) : List String :=
  if xs.contains n then xs else xs ++ [n]

/-- `_parse_parameter_types`. -/
def parseParameterTypes (parameters : String) : List String :=
  if parameters = "" || stripL parameters.data = [] then []
  else
    (splitOnChar ',' parameters.data).filterMap (fun param =>
      let p := stripL param
      if p = [] then none
      else
        let parts := splitWS p
        if 2 ≤ parts.length then (parts.head?).map String.mk else none)

/-- Import loop body: DTO check then Entity check on the simple name. -/
def relateImportsStep (acc : List String × List String) (imp : String) :
    List String × List String :=
  let sn := simpleLast imp
  let ds := if hasKw dtoKeywords sn then addIfNew acc.1 sn else acc.1
  let es := if hasKw entityKeywords sn then addIfNew acc.2 sn else acc.2
  (ds, es)

/-- Return-type check of the method loop (DTO keywords only). -/
def relateReturnStep (ds : List String) (m : MethodSig) : List String :=
  if !(m.return_type = "") && !(m.return_type = "void") then
    let sr := stripAngleBrackets (simpleLast m.return_type)
    if hasKw dtoKeywords sr then addIfNew ds sr else ds
  else ds

/-- Parameter check of the method loop (DTO keywords only). -/
def relateParamsStep (ds : List String) (m : MethodSig) : List String :=
  (parseParameterTypes m.parameters).foldl (fun ds t =>
    let sp := stripAngleBrackets (simpleLast t)
    if hasKw dtoKeywords sp then addIfNew ds sp else ds) ds

def relateMethodStep (ds : List String) (m : MethodSig) : List String :=
  relateParamsStep (relateReturnStep ds m) m

/-- `_find_related_classes` body for one record.  (The source also reads the
interface file into an unused local variable; being effect-free in the model,
that read is omitted.) -/
def relateRec (imps : List String) (r : EJBInterfaceInfo) : EJBInterfaceInfo :=
  let p := imps.foldl relateImportsStep (r.related_dtos, r.related_entities)
  { r with related_dtos := r.methods.foldl relateMethodStep p.1, related_entities := p.2 }

/-- `self.all_imports.get(file_path, set())`. -/
def importsFor (m : List (String × List String)) (p : String) : List String :=
  match dlookup m p with
  | some is => is
  | none => []

def findRelatedClasses (s : ParserState) : ParserState :=
  { s with
    interfaces := s.interfaces.map (fun r => relateRec (importsFor s.all_imports r.file_path) r) }

/-- `EJBParser.parse`: the five passes in order. -/
def parse (fs : FS) (s : ParserState) : ParserState :=
  findRelatedClasses (linkBeans fs (identifyInterfaces fs (analyzeImports fs (buildSymbolTable fs s))))

/-! ## `ejb_rag_builder`: Super-Context assembly -/

/-- Metadata record of a Super-Context (the Python dict has exactly these
keys; `methods` is the name list added to the full metadata). -/
structure SCMetadata where
  interface_name : String
  package : String
  interface_type : String
  bean_class : String
  has_bean : Bool
  dto_count : Nat
  entity_count : Nat
  method_count : Nat
  methods : List String
deriving DecidableEq, Repr, Inhabited

/-- `SuperContext` dataclass. -/
structure SuperContext where
  interface_name : String
  interface_code : String
  bean_code : Option String
  dto_codes : List (String × String)
  entity_codes : List (String × String)
  metadata : SCMetadata
deriving DecidableEq, Repr, Inhabited

/-- `EJBRAGBuilder._read_file_content` (None on failure). -/
def readFileContent (fs : FS) (p : String) : Option String := readFS fs p

/-- Loop body collecting `dto_codes` / `entity_codes`: include a related name
only if it is in the symbol table and its file reads as a non-empty string. -/
def codeCollectStep (fs : FS) (tbl : List (String × String))
    (d : List (String × String)) (n : String) : List (String × String) :=
  match dlookup tbl n with
  | some p =>
    match readFileContent fs p with
    | some code => if !(code = "") then upd d n code else d
    | none => d
  | none => d

/-- `EJBRAGBuilder._build_super_context`. -/
def buildSuperContext (fs : FS) (tbl : List (String × String)) (r : EJBInterfaceInfo) :
    Option SuperContext :=
  match readFileContent fs r.file_path with
  | none => none
  | some icode =>
    if icode = "" then none
    else
      let bean_code : Option String :=
        match r.bean_class with
        | some b =>
          if !(b = "") then
            match dlookup tbl b with
            | some bp => readFileContent fs bp
            | none => none
          else none
        | none => none
      let dto_codes := r.related_dtos.foldl (codeCollectStep fs tbl) []
      let entity_codes := r.related_entities.foldl (codeCollectStep fs tbl) []
      some
        { interface_name := r.interface_name, interface_code := icode, bean_code := bean_code,
          dto_codes := dto_codes, entity_codes := entity_codes,
          metadata :=
            { interface_name := r.interface_name, package := r.package,
              interface_type := r.interface_type,
              bean_class := pyOrStr r.bean_class "",
              has_bean := bean_code.isSome,
              dto_count := dto_codes.length, entity_count := entity_codes.length,
              method_count := r.methods.length,
              methods := r.methods.map (fun m => m.name) } }

/-- `EJBRAGBuilder.build_all_super_contexts` (a failed build contributes
nothing; a returned dataclass instance is always truthy). -/
def buildAllSuperContexts (fs : FS) (tbl : List (String × String))
    (recs : List EJBInterfaceInfo) : List SuperContext :=
  recs.foldl (fun acc r =>
    match buildSuperContext fs tbl r with
    | some sc => acc ++ [sc]
    | none => acc) []

/-! ## `validate_ejb_project` -/

def validatorAnnotations : List String :=
  ["@Remote", "@Local", "@Stateless", "@Stateful", "@Singleton"]

/-- Per-file step of the validator loop, on the accumulator
`(has_ejb_annotations, has_ejb_naming, interface_count)`; a file that fails
to read contributes nothing. -/
def vStep (acc : Bool × Bool × Nat) (f : JFile) : Bool × Bool × Nat :=
  match f.content with
  | none => acc
  | some c =>
    let ha := acc.1 || validatorAnnotations.any (fun a => strContains c a)
    if searchNamingIface c then (ha, true, acc.2.2 + 1) else (ha, acc.2.1, acc.2.2)

def noJavaMsg : String := "No Java files found in the project"

def notEjbMsg : String :=
  "This does not appear to be an EJB project. EJB projects should contain @Remote/@Local annotations, ejb-jar.xml configuration, or follow EJB naming conventions."

/-- `validate_ejb_project` for an existing project path (the
`path.exists()` guard is outside the model: a modelled `FS` exists). -/
def validateEjbProject (fs : FS) : Bool × String :=
  let javaFiles := javaFilesOf fs
  if javaFiles.isEmpty then (false, noJavaMsg)
  else
    let has_ejb_xml := !(fs.filter (fun f => f.path == "ejb-jar.xml")).isEmpty
    let scan := (javaFiles.take 100).foldl vStep (false, false, 0)
    let is_ejb := has_ejb_xml || scan.1 || (scan.2.1 && decide (2 ≤ scan.2.2))
    if is_ejb then
      (true, "Valid EJB project detected with " ++ toString scan.2.2 ++ " interfaces")
    else (false, notEjbMsg)
/-! ## Auxiliary definitions used by the lemmas and claims below -/

/-- Last value assigned to `k` by the update sequence `ps`. -/
def lastVal {α : Type} : List (String × α) → String → Option α
  | [], _ => none
  | p :: ps, k =>
    match lastVal ps k with
    | some v => some v
    | none => if p.1 == k then some p.2 else none

/-- Fold of `addIfNew` over a list of candidate names. -/
def addAll (xs ns : List String) : List String := ns.foldl addIfNew xs

/-- Import-derived DTO candidates (in loop order). -/
def importDtoNames (imps : List String) : List String :=
  (imps.map simpleLast).filter (hasKw dtoKeywords)

/-- Import-derived Entity candidates (in loop order). -/
def importEntityNames (imps : List String) : List String :=
  (imps.map simpleLast).filter (hasKw entityKeywords)

/-- DTO candidates contributed by a method's return type. -/
def returnDtoNames (m : MethodSig) : List String :=
  if !(m.return_type = "") && !(m.return_type = "void") then
    if hasKw dtoKeywords (stripAngleBrackets (simpleLast m.return_type)) then
      [stripAngleBrackets (simpleLast m.return_type)]
    else []
  else []

/-- DTO candidates contributed by a method's parameter types. -/
def paramDtoNames (m : MethodSig) : List String :=
  (parseParameterTypes m.parameters).filterMap (fun t =>
    if hasKw dtoKeywords (stripAngleBrackets (simpleLast t)) then
      some (stripAngleBrackets (simpleLast t))
    else none)

/-- All DTO candidates contributed by one method. -/
def methodDtoNames (m : MethodSig) : List String := returnDtoNames m ++ paramDtoNames m

/-- Records appended by one `_identify_interfaces` run over symbol table `tbl`. -/
def newRecs (fs : FS) (tbl : List (String × String)) : List EJBInterfaceInfo :=
  (tbl.foldl (idStep fs) ([], [])).2

/-- Does any annotation contain the keyword as a substring? -/
def annHas (anns : List String) (kw : String) : Bool :=
  anns.any (fun a => strContains a kw)

/-- Does the interface name match one of the five naming-convention patterns? -/
def nameSuffixMatch (name : String) : Bool :=
  INTERFACE_PATTERNS.any (fun p => reSuffix name p)

/-- The classification rule actually implemented by `_identify_interfaces`,
written as a plain decision cascade. -/
def codeCategoryRule (anns : List String) (name : String) : String :=
  if annHas anns "Remote" then "Remote"
  else if annHas anns "Local" then "Local"
  else if nameSuffixMatch name then
    if strContains name "Remote" then "Remote"
    else if strContains name "Local" then "Local"
    else "Business"
  else "Unknown"

/-- A sampled file triggering the annotation test. -/
def fileHasAnn (f : JFile) : Bool :=
  match f.content with
  | some c => validatorAnnotations.any (fun a => strContains c a)
  | none => false

/-- A sampled file triggering the naming test. -/
def fileHasNaming (f : JFile) : Bool :=
  match f.content with
  | some c => searchNamingIface c
  | none => false

/-- Project of end-to-end scenario A (claim C1). -/
def fsC1 : FS :=
  [{ path := "UserServiceRemote.java",
     content := some "public interface UserServiceRemote \x7b\n    String getUser(int id);\n\x7d\n" },
   { path := "UserServiceBean.java",
     content := some
       "public class UserServiceBean implements UserServiceRemote \x7b\n    public String getUser(int id) \x7b\n        return null;\n    \x7d\n\x7d\n" }]

/-- Modelled from the claim C2 wording: Remote if any annotation or any
substring of the interface name contains "Remote"; otherwise Local under the
symmetric rule; otherwise Business on a naming-convention match; otherwise
Unknown. -/
def claimC2Category (anns : List String) (name : String) : String :=
  if annHas anns "Remote" || strContains name "Remote" then "Remote"
  else if annHas anns "Local" || strContains name "Local" then "Local"
  else if nameSuffixMatch name then "Business"
  else "Unknown"

/-- Interface record with an Entity-named return type and parameter type but
no imports (claim C3). -/
def rC3 : EJBInterfaceInfo :=
  { id := "S", interface_name := "S", bean_class := none, file_path := "S.java", package := "",
    annotations := [], interface_type := "Business",
    methods := [{ return_type := "CustomerEntity", name := "find", parameters := "OrderEntity o" }],
    related_dtos := [], related_entities := [] }

/-- One-file project with one EJB-style interface (claim C4). -/
def fsC4 : FS :=
  [{ path := "AService.java", content := some "public interface AService \x7b void ping(); \x7d" }]

/-- Interface record for the `OrderService` linking scenario (claim C5). -/
def rC5 : EJBInterfaceInfo :=
  { id := "OrderService", interface_name := "OrderService", bean_class := none,
    file_path := "OrderService.java", package := "", annotations := [],
    interface_type := "Business", methods := [], related_dtos := [], related_entities := [] }

/-- Project, symbol table and record for the Super-Context witnesses
(claims C6, C8). -/
def fsB : FS :=
  [{ path := "I.java", content := some "interface IService \x7b\x7d" },
   { path := "FooDTO.java", content := some "class FooDTO \x7b\x7d" }]

def tblB : List (String × String) := [("FooDTO", "FooDTO.java")]

def rB : EJBInterfaceInfo :=
  { id := "IService", interface_name := "IService", bean_class := none, file_path := "I.java",
    package := "", annotations := [], interface_type := "Business", methods := [],
    related_dtos := ["FooDTO", "MissingDTO"], related_entities := ["BarEntity"] }

def scB : SuperContext := (buildSuperContext fsB tblB rB).getD default

/-- Project with an unreadable interface file (claim C9). -/
def fsC9 : FS := [{ path := "I.java", content := none }]

def rC9 : EJBInterfaceInfo :=
  { id := "IService", interface_name := "IService", bean_class := none, file_path := "I.java",
    package := "", annotations := [], interface_type := "Business", methods := [],
    related_dtos := [], related_entities := [] }

/-- One-file project declaring two naming-convention interfaces (claim C7). -/
def fsC7 : FS :=
  [{ path := "Services.java", content := some "interface AService \x7b\x7d\ninterface BService \x7b\x7d" }]

/-- Modelled from the claim C7 wording: count every naming-convention
interface declaration (non-overlapping matches of the validator's pattern),
not just the files containing one; fuelled scan. -/
def countNamingGo : Nat → Bool → List Char → Nat
  | 0, _, _ => 0
  | fuel + 1, prevW, l =>
    if namingIfaceAt prevW l then
      let r := l.drop 9
      let sp := (r.takeWhile pyIsSpace).length
      let w := ((r.drop sp).takeWhile isWordChar).length
      countNamingGo fuel true (r.drop (sp + w)) + 1
    else
      match l with
      | [] => 0
      | c :: t => countNamingGo fuel (isWordChar c) t

def countNamingDecls (content : String) : Nat :=
  countNamingGo (content.data.length + 1) false content.data

/-- Modelled from the claim C7 wording: total naming-convention interfaces in
the bounded sample. -/
def claimC7InterfaceCount (fs : FS) : Nat :=
  (((javaFilesOf fs).take 100).map (fun f =>
    match f.content with
    | some c => countNamingDecls c
    | none => 0)).sum

/-- Modelled from the claim C7 wording: valid iff at least one Java file and
(descriptor present, or an Enterprise-Bean annotation in the sample, or at
least two naming-convention interfaces in the sample). -/
def claimC7Valid (fs : FS) : Bool :=
  (!(javaFilesOf fs).isEmpty) &&
    ((!(fs.filter (fun f => f.path == "ejb-jar.xml")).isEmpty) ||
      ((javaFilesOf fs).take 100).any fileHasAnn ||
      decide (2 ≤ claimC7InterfaceCount fs))

/-! ## Dictionary lemmas -/

section DictLemmas

variable {α : Type}

theorem dlookup_cons_pos (p : String × α) (t : List (String × α)) (k : String)
    (h : p.1 = k) : dlookup (p :: t) k = some p.2 := by
  unfold dlookup
  rw [List.find?_cons_of_pos _ (by simpa using h)]
  rfl

theorem dlookup_cons_neg (p : String × α) (t : List (String × α)) (k : String)
    (h : ¬ p.1 = k) : dlookup (p :: t) k = dlookup t k := by
  unfold dlookup
  rw [List.find?_cons_of_neg _ (by simpa using h)]

theorem any_key_eq_isSome_dlookup (d : List (String × α)) (k : String) :
    d.any (fun kv => kv.1 == k) = (dlookup d k).isSome := by
  induction d with
  | nil => rfl
  | cons p t ih =>
    by_cases h : p.1 = k
    · rw [dlookup_cons_pos p t k h]
      simp [h]
    · rw [dlookup_cons_neg p t k h]
      have hb : (p.1 == k) = false := by simpa using h
      rw [List.any_cons, hb, Bool.false_or]
      exact ih

theorem dlookup_map_overwrite_ne (d : List (String × α)) (k : String) (v : α) (k' : String)
    (h : k' ≠ k) :
    dlookup (d.map (fun kv => if kv.1 == k then (k, v) else kv)) k' = dlookup d k' := by
  induction d with
  | nil => rfl
  | cons p t ih =>
    simp only [List.map_cons]
    by_cases hp : p.1 = k
    · rw [if_pos (by simpa using hp),
        dlookup_cons_neg (k, v) _ k' (fun hc => h hc.symm),
        dlookup_cons_neg p t k' (by rw [hp]; exact fun hc => h hc.symm)]
      exact ih
    · rw [if_neg (by simpa using hp)]
      by_cases hq : p.1 = k'
      · rw [dlookup_cons_pos _ _ _ hq, dlookup_cons_pos p t k' hq]
      · rw [dlookup_cons_neg _ _ _ hq, dlookup_cons_neg p t k' hq]
        exact ih

theorem dlookup_map_overwrite_eq (d : List (String × α)) (k : String) (v : α) :
    dlookup (d.map (fun kv => if kv.1 == k then (k, v) else kv)) k =
      (dlookup d k).map (fun _ => v) := by
  induction d with
  | nil => rfl
  | cons p t ih =>
    simp only [List.map_cons]
    by_cases hp : p.1 = k
    · rw [if_pos (by simpa using hp), dlookup_cons_pos (k, v) _ k rfl,
        dlookup_cons_pos p t k hp]
      rfl
    · rw [if_neg (by simpa using hp), dlookup_cons_neg _ _ _ hp, dlookup_cons_neg p t k hp]
      exact ih

theorem dlookup_append_single (d : List (String × α)) (k : String) (v : α) (k' : String) :
    dlookup (d ++ [(k, v)]) k' =
      match dlookup d k' with
      | some w => some w
      | none => if k' = k then some v else none := by
  induction d with
  | nil =>
    simp only [List.nil_append]
    show dlookup [(k, v)] k' = if k' = k then some v else none
    by_cases hk : k = k'
    · rw [dlookup_cons_pos _ _ _ hk, if_pos hk.symm]
    · rw [dlookup_cons_neg _ _ _ hk, if_neg (fun hc => hk hc.symm)]
      rfl
  | cons p t ih =>
    rw [List.cons_append]
    by_cases hq : p.1 = k'
    · rw [dlookup_cons_pos _ _ _ hq, dlookup_cons_pos p t k' hq]
    · rw [dlookup_cons_neg _ _ _ hq, dlookup_cons_neg p t k' hq]
      exact ih

theorem dlookup_upd (d : List (String × α)) (k : String) (v : α) (k' : String) :
    dlookup (upd d k v) k' = if k' = k then some v else dlookup d k' := by
  unfold upd
  by_cases hany : d.any (fun kv => kv.1 == k) = true
  · rw [if_pos hany]
    rw [any_key_eq_isSome_dlookup] at hany
    by_cases hk : k' = k
    · subst hk
      rw [dlookup_map_overwrite_eq, if_pos rfl]
      cases hl : dlookup d k' with
      | some w => simp
      | none => rw [hl] at hany; simp at hany
    · rw [dlookup_map_overwrite_ne d k v k' hk, if_neg hk]
  · rw [if_neg hany, dlookup_append_single]
    rw [any_key_eq_isSome_dlookup] at hany
    by_cases hk : k' = k
    · subst hk
      cases hl : dlookup d k' with
      | some w => rw [hl] at hany; simp at hany
      | none => simp
    · cases hl : dlookup d k' with
      | some w => simp [hk]
      | none => simp [hk]

theorem dkeys_upd_of_mem (d : List (String × α)) (k : String) (v : α)
    (h : k ∈ dkeys d) : dkeys (upd d k v) = dkeys d := by
  unfold upd
  have hany : d.any (fun kv => kv.1 == k) = true := by
    simp only [dkeys, List.mem_map] at h
    rcases h with ⟨kv, hkv, hk⟩
    exact List.any_eq_true.mpr ⟨kv, hkv, by simp [hk]⟩
  rw [if_pos hany]
  simp only [dkeys, List.map_map]
  apply List.map_congr_left
  intro kv _
  by_cases hkv : kv.1 = k
  · simp [Function.comp, hkv]
  · simp [Function.comp, hkv]

theorem dkeys_upd_of_not_mem (d : List (String × α)) (k : String) (v : α)
    (h : ¬ k ∈ dkeys d) : dkeys (upd d k v) = dkeys d ++ [k] := by
  unfold upd
  have hany : ¬ d.any (fun kv => kv.1 == k) = true := by
    intro hc
    rcases List.any_eq_true.mp hc with ⟨kv, hkv, hk⟩
    exact h (by simp only [dkeys, List.mem_map]; exact ⟨kv, hkv, by simpa using hk⟩)
  rw [if_neg hany]
  simp [dkeys]

theorem mem_dkeys_upd (d : List (String × α)) (k : String) (v : α) (k' : String)
    (h : k' ∈ dkeys d) : k' ∈ dkeys (upd d k v) := by
  by_cases hk : k ∈ dkeys d
  · rwa [dkeys_upd_of_mem d k v hk]
  · rw [dkeys_upd_of_not_mem d k v hk]
    exact List.mem_append_left _ h

theorem self_mem_dkeys_upd (d : List (String × α)) (k : String) (v : α) :
    k ∈ dkeys (upd d k v) := by
  by_cases hk : k ∈ dkeys d
  · rwa [dkeys_upd_of_mem d k v hk]
  · rw [dkeys_upd_of_not_mem d k v hk]
    exact List.mem_append_right _ (by simp)

theorem mem_dkeys_updAll (ps : List (String × α)) (d : List (String × α)) (k' : String)
    (h : k' ∈ dkeys d) : k' ∈ dkeys (updAll d ps) := by
  induction ps generalizing d with
  | nil => exact h
  | cons q t ih => exact ih (upd d q.1 q.2) (mem_dkeys_upd d q.1 q.2 k' h)

theorem subset_dkeys_updAll (d : List (String × α)) (ps : List (String × α)) :
    ∀ p ∈ ps, p.1 ∈ dkeys (updAll d ps) := by
  induction ps generalizing d with
  | nil => simp
  | cons q t ih =>
    intro p hp
    rcases List.mem_cons.mp hp with hp | hp
    · subst hp
      exact mem_dkeys_updAll t (upd d p.1 p.2) p.1 (self_mem_dkeys_upd d p.1 p.2)
    · exact ih (upd d q.1 q.2) p hp

theorem dkeys_updAll_of_covered (ps : List (String × α)) (d : List (String × α))
    (h : ∀ p ∈ ps, p.1 ∈ dkeys d) : dkeys (updAll d ps) = dkeys d := by
  induction ps generalizing d with
  | nil => rfl
  | cons q t ih =>
    have hq : q.1 ∈ dkeys d := h q (by simp)
    show dkeys (updAll (upd d q.1 q.2) t) = dkeys d
    rw [ih (upd d q.1 q.2) (fun p hp => mem_dkeys_upd _ _ _ _ (h p (by simp [hp]))),
      dkeys_upd_of_mem d q.1 q.2 hq]

theorem dlookup_updAll (ps : List (String × α)) (d : List (String × α)) (k : String) :
    dlookup (updAll d ps) k =
      match lastVal ps k with
      | some v => some v
      | none => dlookup d k := by
  induction ps generalizing d with
  | nil => rfl
  | cons q t ih =>
    show dlookup (updAll (upd d q.1 q.2) t) k = _
    rw [ih]
    cases hlv : lastVal t k with
    | some v => simp [lastVal, hlv]
    | none =>
      simp only [lastVal, hlv]
      rw [dlookup_upd]
      by_cases hk : k = q.1
      · simp [hk]
      · have : ¬ (q.1 == k) = true := by simpa using fun hc => hk hc.symm
        simp [hk, this]

theorem nodup_dkeys_upd (d : List (String × α)) (k : String) (v : α)
    (h : (dkeys d).Nodup) : (dkeys (upd d k v)).Nodup := by
  by_cases hk : k ∈ dkeys d
  · rwa [dkeys_upd_of_mem d k v hk]
  · rw [dkeys_upd_of_not_mem d k v hk]
    simpa [List.nodup_append] using ⟨h, hk⟩

theorem nodup_dkeys_updAll (ps : List (String × α)) (d : List (String × α))
    (h : (dkeys d).Nodup) : (dkeys (updAll d ps)).Nodup := by
  induction ps generalizing d with
  | nil => exact h
  | cons q t ih => exact ih (upd d q.1 q.2) (nodup_dkeys_upd d q.1 q.2 h)

theorem dlookup_eq_none_of_not_mem (d : List (String × α)) (k : String)
    (h : ¬ k ∈ dkeys d) : dlookup d k = none := by
  induction d with
  | nil => rfl
  | cons p t ih =>
    have hp : ¬ p.1 = k := fun hc => h (by simp [dkeys, hc])
    rw [dlookup_cons_neg p t k hp]
    exact ih (fun hc => h (by simp [dkeys] at hc ⊢; exact Or.inr hc))

theorem dict_ext (d1 : List (String × α)) : ∀ d2 : List (String × α),
    dkeys d1 = dkeys d2 → (dkeys d1).Nodup → (∀ k, dlookup d1 k = dlookup d2 k) →
    d1 = d2 := by
  induction d1 with
  | nil =>
    intro d2 hk _ _
    cases d2 with
    | nil => rfl
    | cons q t2 => simp [dkeys] at hk
  | cons p t1 ih =>
    intro d2 hk hnd hl
    cases d2 with
    | nil => simp [dkeys] at hk
    | cons q t2 =>
      have hk' : p.1 :: dkeys t1 = q.1 :: dkeys t2 := hk
      injection hk' with hk1 hk2
      have hv : p.2 = q.2 := by
        have h1 := hl p.1
        rw [dlookup_cons_pos p t1 p.1 rfl, dlookup_cons_pos q t2 p.1 hk1.symm] at h1
        exact Option.some.inj h1
      have hnd' := List.nodup_cons.mp (show (p.1 :: dkeys t1).Nodup from hnd)
      have ht : t1 = t2 := by
        apply ih t2 hk2 hnd'.2
        intro k
        by_cases hkp : k = p.1
        · rw [dlookup_eq_none_of_not_mem t1 k (by rw [hkp]; exact hnd'.1),
            dlookup_eq_none_of_not_mem t2 k (by rw [hkp, ← hk2]; exact hnd'.1)]
        · have h1 := hl k
          rw [dlookup_cons_neg p t1 k (fun hc => hkp hc.symm),
            dlookup_cons_neg q t2 k (fun hc => hkp (hk1 ▸ hc).symm)] at h1
          exact h1
      calc p :: t1 = (p.1, p.2) :: t1 := rfl
        _ = (q.1, q.2) :: t2 := by rw [hk1, hv, ht]
        _ = q :: t2 := rfl

/-- Replaying an update sequence on its own result is a no-op (for a starting
dictionary with distinct keys, in particular the empty one). -/
theorem updAll_idem (ps : List (String × α)) (d : List (String × α))
    (hnd : (dkeys d).Nodup) : updAll (updAll d ps) ps = updAll d ps := by
  apply dict_ext
  · exact dkeys_updAll_of_covered ps _ (fun p hp => subset_dkeys_updAll d ps p hp)
  · exact nodup_dkeys_updAll ps _ (nodup_dkeys_updAll ps d hnd)
  · intro k
    simp only [dlookup_updAll]
    cases lastVal ps k <;> simp

end DictLemmas

/-! ## Deduplicating-append lemmas -/

theorem mem_addIfNew (xs : List String) (m n : String) :
    n ∈ addIfNew xs m ↔ n ∈ xs ∨ n = m := by
  unfold addIfNew
  by_cases h : xs.contains m
  · rw [if_pos h]
    constructor
    · exact Or.inl
    · rintro (hn | rfl)
      · exact hn
      · simpa using h
  · rw [if_neg h]
    simp

theorem mem_addAll (ns xs : List String) (n : String) :
    n ∈ addAll xs ns ↔ n ∈ xs ∨ n ∈ ns := by
  induction ns generalizing xs with
  | nil => simp [addAll]
  | cons m t ih =>
    show n ∈ addAll (addIfNew xs m) t ↔ _
    rw [ih, mem_addIfNew]
    simp only [List.mem_cons]
    tauto

theorem addAll_of_subset (ns xs : List String) (h : ∀ n ∈ ns, n ∈ xs) :
    addAll xs ns = xs := by
  induction ns generalizing xs with
  | nil => rfl
  | cons m t ih =>
    show addAll (addIfNew xs m) t = xs
    have hm : addIfNew xs m = xs := by
      unfold addIfNew
      rw [if_pos (by simpa using h m (by simp))]
    rw [hm]
    exact ih xs (fun n hn => h n (by simp [hn]))

theorem addAll_idem (xs ns : List String) : addAll (addAll xs ns) ns = addAll xs ns :=
  addAll_of_subset ns _ (fun n hn => (mem_addAll ns xs n).mpr (Or.inr hn))

theorem addAll_append (xs ns ms : List String) :
    addAll xs (ns ++ ms) = addAll (addAll xs ns) ms := by
  simp [addAll, List.foldl_append]

/-! ## Characterization of the relatedness resolver -/

theorem foldl_relateImportsStep (imps : List String) (ds es : List String) :
    imps.foldl relateImportsStep (ds, es) =
      (addAll ds (importDtoNames imps), addAll es (importEntityNames imps)) := by
  induction imps generalizing ds es with
  | nil => rfl
  | cons imp t ih =>
    show t.foldl relateImportsStep (relateImportsStep (ds, es) imp) = _
    rw [show relateImportsStep (ds, es) imp =
        (if hasKw dtoKeywords (simpleLast imp) then addIfNew ds (simpleLast imp) else ds,
         if hasKw entityKeywords (simpleLast imp) then addIfNew es (simpleLast imp) else es)
      from rfl]
    rw [ih]
    by_cases h1 : hasKw dtoKeywords (simpleLast imp) <;>
      by_cases h2 : hasKw entityKeywords (simpleLast imp) <;>
        simp [h1, h2, importDtoNames, importEntityNames, List.filter_cons, addAll]

theorem relateParamsStep_eq (ds : List String) (m : MethodSig) :
    relateParamsStep ds m = addAll ds (paramDtoNames m) := by
  unfold relateParamsStep paramDtoNames
  generalize parseParameterTypes m.parameters = ts
  induction ts generalizing ds with
  | nil => rfl
  | cons t ts ih =>
    simp only [List.foldl_cons, List.filterMap_cons]
    by_cases h : hasKw dtoKeywords (stripAngleBrackets (simpleLast t)) <;>
      simp [h, ih, addAll]

theorem relateReturnStep_eq (ds : List String) (m : MethodSig) :
    relateReturnStep ds m = addAll ds (returnDtoNames m) := by
  unfold relateReturnStep returnDtoNames
  by_cases h1 : !(m.return_type = "") && !(m.return_type = "void")
  · by_cases h2 : hasKw dtoKeywords (stripAngleBrackets (simpleLast m.return_type)) <;>
      simp [h1, h2, addAll, addIfNew]
  · simp [h1, addAll]

theorem relateMethodStep_eq (ds : List String) (m : MethodSig) :
    relateMethodStep ds m = addAll ds (methodDtoNames m) := by
  unfold relateMethodStep methodDtoNames
  rw [relateReturnStep_eq, relateParamsStep_eq, addAll_append]

theorem foldl_relateMethodStep (ms : List MethodSig) (ds : List String) :
    ms.foldl relateMethodStep ds = addAll ds (ms.flatMap methodDtoNames) := by
  induction ms generalizing ds with
  | nil => rfl
  | cons m t ih =>
    rw [show (m :: t).flatMap methodDtoNames = methodDtoNames m ++ t.flatMap methodDtoNames
      from rfl]
    rw [List.foldl_cons, relateMethodStep_eq, ih, addAll_append]

theorem relateRec_dtos (imps : List String) (r : EJBInterfaceInfo) :
    (relateRec imps r).related_dtos =
      addAll r.related_dtos (importDtoNames imps ++ r.methods.flatMap methodDtoNames) := by
  unfold relateRec
  rw [foldl_relateImportsStep]
  show r.methods.foldl relateMethodStep (addAll r.related_dtos (importDtoNames imps)) = _
  rw [foldl_relateMethodStep, addAll_append]

theorem relateRec_entities (imps : List String) (r : EJBInterfaceInfo) :
    (relateRec imps r).related_entities = addAll r.related_entities (importEntityNames imps) := by
  unfold relateRec
  rw [foldl_relateImportsStep]

theorem relateRec_interface_name (imps : List String) (r : EJBInterfaceInfo) :
    (relateRec imps r).interface_name = r.interface_name := rfl

theorem relateRec_file_path (imps : List String) (r : EJBInterfaceInfo) :
    (relateRec imps r).file_path = r.file_path := rfl

theorem relateRec_bean_class (imps : List String) (r : EJBInterfaceInfo) :
    (relateRec imps r).bean_class = r.bean_class := rfl

theorem relateRec_methods (imps : List String) (r : EJBInterfaceInfo) :
    (relateRec imps r).methods = r.methods := rfl

theorem eji_ext (a b : EJBInterfaceInfo) (h1 : a.id = b.id)
    (h2 : a.interface_name = b.interface_name) (h3 : a.bean_class = b.bean_class)
    (h4 : a.file_path = b.file_path) (h5 : a.package = b.package)
    (h6 : a.annotations = b.annotations) (h7 : a.interface_type = b.interface_type)
    (h8 : a.methods = b.methods) (h9 : a.related_dtos = b.related_dtos)
    (h10 : a.related_entities = b.related_entities) : a = b := by
  cases a
  cases b
  simp_all

theorem relateRec_id (imps : List String) (r : EJBInterfaceInfo) :
    (relateRec imps r).id = r.id := rfl

theorem relateRec_package (imps : List String) (r : EJBInterfaceInfo) :
    (relateRec imps r).package = r.package := rfl

theorem relateRec_annotations (imps : List String) (r : EJBInterfaceInfo) :
    (relateRec imps r).annotations = r.annotations := rfl

theorem relateRec_interface_type (imps : List String) (r : EJBInterfaceInfo) :
    (relateRec imps r).interface_type = r.interface_type := rfl

theorem relateRec_idem (imps : List String) (r : EJBInterfaceInfo) :
    relateRec imps (relateRec imps r) = relateRec imps r := by
  apply eji_ext
  case h9 =>
    rw [relateRec_dtos imps (relateRec imps r), relateRec_methods, relateRec_dtos imps r]
    exact addAll_idem _ _
  case h10 =>
    rw [relateRec_entities imps (relateRec imps r), relateRec_entities imps r]
    exact addAll_idem _ _
  all_goals rfl

/-! ## Idempotence of the bean linker -/

theorem linkBeanName_idem (fs : FS) (tbl : List (String × String)) (n : String)
    (b : Option String) :
    linkBeanName fs tbl n (linkBeanName fs tbl n b) = linkBeanName fs tbl n b := by
  unfold linkBeanName
  cases hp : probeNaming tbl n with
  | some c => simp
  | none =>
    cases b with
    | some x => simp
    | none =>
      cases hs : implScanFind fs tbl n with
      | some y => simp [hs]
      | none => simp [hs]

theorem linkRec_interface_name (fs : FS) (tbl : List (String × String))
    (r : EJBInterfaceInfo) : (linkRec fs tbl r).interface_name = r.interface_name := rfl

theorem linkRec_file_path (fs : FS) (tbl : List (String × String))
    (r : EJBInterfaceInfo) : (linkRec fs tbl r).file_path = r.file_path := rfl

theorem linkRec_bean_class (fs : FS) (tbl : List (String × String)) (r : EJBInterfaceInfo) :
    (linkRec fs tbl r).bean_class = linkBeanName fs tbl r.interface_name r.bean_class := rfl

/-- A record whose `bean_class` is already a fixed point of the linker is left
unchanged. -/
theorem linkRec_fixed (fs : FS) (tbl : List (String × String)) (y : EJBInterfaceInfo)
    (h : linkBeanName fs tbl y.interface_name y.bean_class = y.bean_class) :
    linkRec fs tbl y = y := by
  unfold linkRec
  rw [h]

/-! ## Decomposition of the classification pass and of `parse` -/

theorem idStep_some (fs : FS) (seen : List String) (acc : List EJBInterfaceInfo)
    (kp : String × String) (rec0 : EJBInterfaceInfo) (h : idNew fs seen kp = some rec0) :
    idStep fs (seen, acc) kp = (kp.1 :: seen, acc ++ [rec0]) := by
  unfold idStep
  rw [show idNew fs (seen, acc).1 kp = some rec0 from h]

theorem idStep_none (fs : FS) (seen : List String) (acc : List EJBInterfaceInfo)
    (kp : String × String) (h : idNew fs seen kp = none) :
    idStep fs (seen, acc) kp = (seen, acc) := by
  unfold idStep
  rw [show idNew fs (seen, acc).1 kp = none from h]

theorem foldl_idStep_acc (fs : FS) (items : List (String × String)) :
    ∀ (seen : List String) (acc : List EJBInterfaceInfo),
    (items.foldl (idStep fs) (seen, acc)).2 = acc ++ (items.foldl (idStep fs) (seen, [])).2 := by
  induction items with
  | nil => intro seen acc; simp
  | cons kp t ih =>
    intro seen acc
    simp only [List.foldl_cons]
    cases h : idNew fs seen kp with
    | some rec0 =>
      rw [idStep_some fs seen acc kp rec0 h, idStep_some fs seen [] kp rec0 h,
        ih (kp.1 :: seen) (acc ++ [rec0]), ih (kp.1 :: seen) ([] ++ [rec0])]
      simp
    | none =>
      rw [idStep_none fs seen acc kp h, idStep_none fs seen [] kp h]
      exact ih seen acc

theorem identify_eq (fs : FS) (s : ParserState) :
    identifyInterfaces fs s =
      { s with interfaces := s.interfaces ++ newRecs fs s.symbol_table } := by
  unfold identifyInterfaces newRecs
  rw [foldl_idStep_acc]

theorem parse_symbol_table (fs : FS) (s : ParserState) :
    (parse fs s).symbol_table = updAll s.symbol_table (symEntries fs) := rfl

theorem parse_all_imports (fs : FS) (s : ParserState) :
    (parse fs s).all_imports =
      updAll s.all_imports (importEntries fs (updAll s.symbol_table (symEntries fs))) := rfl

theorem parse_interfaces (fs : FS) (s : ParserState) :
    (parse fs s).interfaces =
      (((updAll s.symbol_table (symEntries fs)).foldl (idStep fs) ([], s.interfaces)).2.map
          (linkRec fs (updAll s.symbol_table (symEntries fs)))).map
        (fun r =>
          relateRec
            (importsFor
              (updAll s.all_imports (importEntries fs (updAll s.symbol_table (symEntries fs))))
              r.file_path)
            r) := rfl

/-- Re-linking and re-relating a record that has already been linked and
related (against the same symbol table and import map) is a no-op. -/
theorem proc_idem (fs : FS) (tbl : List (String × String)) (im : List (String × List String))
    (r : EJBInterfaceInfo) :
    relateRec
        (importsFor im
          (linkRec fs tbl
            (relateRec (importsFor im (linkRec fs tbl r).file_path) (linkRec fs tbl r))).file_path)
        (linkRec fs tbl
          (relateRec (importsFor im (linkRec fs tbl r).file_path) (linkRec fs tbl r))) =
      relateRec (importsFor im (linkRec fs tbl r).file_path) (linkRec fs tbl r) := by
  have hy :
      linkRec fs tbl
          (relateRec (importsFor im (linkRec fs tbl r).file_path) (linkRec fs tbl r)) =
        relateRec (importsFor im (linkRec fs tbl r).file_path) (linkRec fs tbl r) := by
    apply linkRec_fixed
    rw [relateRec_interface_name, relateRec_bean_class, linkRec_interface_name,
      linkRec_bean_class]
    exact linkBeanName_idem fs tbl r.interface_name r.bean_class
  rw [hy, relateRec_file_path, relateRec_idem]

/-- First-run state pieces, fused into one map (definitional reshaping). -/
theorem first_parse_interfaces (fs : FS) :
    (parse fs initState).interfaces =
      (newRecs fs (updAll [] (symEntries fs))).map
        (fun r =>
          relateRec
            (importsFor (updAll [] (importEntries fs (updAll [] (symEntries fs))))
              (linkRec fs (updAll [] (symEntries fs)) r).file_path)
            (linkRec fs (updAll [] (symEntries fs)) r)) := by
  show ((newRecs fs (updAll [] (symEntries fs))).map
        (linkRec fs (updAll [] (symEntries fs)))).map
      (fun r =>
        relateRec
          (importsFor (updAll [] (importEntries fs (updAll [] (symEntries fs)))) r.file_path)
          r) = _
  rw [List.map_map]
  rfl

/-- Effect of a second `parse()` call on the same parser object: the symbol
table and import map are reproduced, while the interface list is duplicated. -/
theorem parse_twice_effect (fs : FS) :
    (parse fs (parse fs initState)).symbol_table = (parse fs initState).symbol_table ∧
    (parse fs (parse fs initState)).all_imports = (parse fs initState).all_imports ∧
    (parse fs (parse fs initState)).interfaces =
      (parse fs initState).interfaces ++ (parse fs initState).interfaces := by
  have hnd0 : (dkeys ([] : List (String × String))).Nodup := by simp [dkeys]
  have hnd0' : (dkeys ([] : List (String × List String))).Nodup := by simp [dkeys]
  have hTT :
      updAll (updAll [] (symEntries fs)) (symEntries fs) = updAll [] (symEntries fs) :=
    updAll_idem (symEntries fs) [] hnd0
  have hAA :
      updAll (updAll [] (importEntries fs (updAll [] (symEntries fs))))
          (importEntries fs (updAll [] (symEntries fs))) =
        updAll [] (importEntries fs (updAll [] (symEntries fs))) :=
    updAll_idem _ [] hnd0'
  refine ⟨?_, ?_, ?_⟩
  · show updAll (updAll [] (symEntries fs)) (symEntries fs) = updAll [] (symEntries fs)
    exact hTT
  · show updAll (updAll [] (importEntries fs (updAll [] (symEntries fs))))
        (importEntries fs (updAll (updAll [] (symEntries fs)) (symEntries fs))) =
      updAll [] (importEntries fs (updAll [] (symEntries fs)))
    rw [hTT]
    exact hAA
  · show (((updAll (updAll [] (symEntries fs)) (symEntries fs)).foldl (idStep fs)
          ([], (parse fs initState).interfaces)).2.map
            (linkRec fs (updAll (updAll [] (symEntries fs)) (symEntries fs)))).map
          (fun r =>
            relateRec
              (importsFor
                (updAll (updAll [] (importEntries fs (updAll [] (symEntries fs))))
                  (importEntries fs (updAll (updAll [] (symEntries fs)) (symEntries fs))))
                r.file_path)
              r) =
        (parse fs initState).interfaces ++ (parse fs initState).interfaces
    rw [hTT, hAA, foldl_idStep_acc fs (updAll [] (symEntries fs)) []
        (parse fs initState).interfaces, List.map_append, List.map_append]
    have hsecond :
        ((((updAll [] (symEntries fs)).foldl (idStep fs) ([], [])).2.map
            (linkRec fs (updAll [] (symEntries fs)))).map
          (fun r =>
            relateRec
              (importsFor (updAll [] (importEntries fs (updAll [] (symEntries fs))))
                r.file_path)
              r)) = (parse fs initState).interfaces := by
      rw [List.map_map]
      exact (first_parse_interfaces fs).symm
    have hfirst :
        (((parse fs initState).interfaces.map (linkRec fs (updAll [] (symEntries fs)))).map
          (fun r =>
            relateRec
              (importsFor (updAll [] (importEntries fs (updAll [] (symEntries fs))))
                r.file_path)
              r)) = (parse fs initState).interfaces := by
      conv_lhs => rw [first_parse_interfaces fs]
      rw [List.map_map, List.map_map]
      conv_rhs => rw [first_parse_interfaces fs]
      apply List.map_congr_left
      intro r _
      exact proc_idem fs (updAll [] (symEntries fs))
        (updAll [] (importEntries fs (updAll [] (symEntries fs)))) r
    rw [hfirst, hsecond]

/-! ## Characterization of the interface-type cascade (C2) -/

theorem namingTypeLoop_eq (ps : List String) (name : String) :
    namingTypeLoop ps name =
      if ps.any (fun p => reSuffix name p) then
        if strContains name "Remote" then "Remote"
        else if strContains name "Local" then "Local"
        else "Business"
      else "Unknown" := by
  induction ps with
  | nil => rfl
  | cons p t ih =>
    unfold namingTypeLoop
    by_cases h : reSuffix name p <;> simp [h, ih, List.any_cons]

theorem contains_remote_imp_annHas (anns : List String)
    (h : anns.contains "@Remote" = true) : annHas anns "Remote" = true := by
  have hm : "@Remote" ∈ anns := by simpa using h
  exact List.any_eq_true.mpr ⟨"@Remote", hm, by decide⟩

theorem contains_local_imp_annHas (anns : List String)
    (h : anns.contains "@Local" = true) : annHas anns "Local" = true := by
  have hm : "@Local" ∈ anns := by simpa using h
  exact List.any_eq_true.mpr ⟨"@Local", hm, by decide⟩

theorem interfaceTypeOf_eq_rule (anns : List String) (name : String) :
    interfaceTypeOf anns name = codeCategoryRule anns name := by
  unfold interfaceTypeOf codeCategoryRule
  have hr : (anns.contains "@Remote" || anns.any (fun a => strContains a "Remote")) =
      annHas anns "Remote" := by
    cases hc : anns.contains "@Remote"
    · simp [annHas]
    · simp [contains_remote_imp_annHas anns hc]
  have hl : (anns.contains "@Local" || anns.any (fun a => strContains a "Local")) =
      annHas anns "Local" := by
    cases hc : anns.contains "@Local"
    · simp [annHas]
    · simp [contains_local_imp_annHas anns hc]
  rw [hr, hl, namingTypeLoop_eq]
  rfl

/-! ## Validator characterization (C7) -/

theorem foldl_vStep (files : List JFile) : ∀ (a b : Bool) (n : Nat),
    files.foldl vStep (a, b, n) =
      (a || files.any fileHasAnn, b || files.any fileHasNaming,
        n + files.countP fileHasNaming) := by
  induction files with
  | nil => intro a b n; simp
  | cons f t ih =>
    intro a b n
    rw [List.foldl_cons]
    cases hc : f.content with
    | none =>
      rw [show vStep (a, b, n) f = (a, b, n) from by unfold vStep; rw [hc], ih]
      have h1 : fileHasAnn f = false := by unfold fileHasAnn; rw [hc]
      have h2 : fileHasNaming f = false := by unfold fileHasNaming; rw [hc]
      simp [List.any_cons, List.countP_cons, h1, h2]
    | some c =>
      have h1 : fileHasAnn f = validatorAnnotations.any (fun a => strContains c a) := by
        unfold fileHasAnn; rw [hc]
      have h2 : fileHasNaming f = searchNamingIface c := by
        unfold fileHasNaming; rw [hc]
      by_cases hn : searchNamingIface c
      · rw [show vStep (a, b, n) f =
              (a || validatorAnnotations.any (fun s => strContains c s), true, n + 1) from by
            unfold vStep; rw [hc]; simp [hn], ih]
        simp [List.any_cons, List.countP_cons, h1, h2, hn, Bool.or_assoc]
        omega
      · rw [show vStep (a, b, n) f =
              (a || validatorAnnotations.any (fun s => strContains c s), b, n) from by
            unfold vStep; rw [hc]; simp [hn], ih]
        simp [List.any_cons, List.countP_cons, h1, h2, hn, Bool.or_assoc]

theorem any_of_one_le_countP {β : Type} (p : β → Bool) (l : List β)
    (h : 1 ≤ l.countP p) : l.any p = true :=
  List.any_eq_true.mpr (List.countP_pos_iff.mp (by omega))

theorem not_isEmpty_filter_eq_any {β : Type} (p : β → Bool) (l : List β) :
    (!(l.filter p).isEmpty) = l.any p := by
  induction l with
  | nil => rfl
  | cons x t ih =>
    by_cases h : p x <;> simp [List.filter_cons, h, List.any_cons, ih]

theorem validate_fst_iff (fs : FS) :
    (validateEjbProject fs).1 = true ↔
      javaFilesOf fs ≠ [] ∧
      (fs.any (fun f => f.path == "ejb-jar.xml") = true ∨
        ((javaFilesOf fs).take 100).any fileHasAnn = true ∨
        2 ≤ ((javaFilesOf fs).take 100).countP fileHasNaming) := by
  unfold validateEjbProject
  by_cases hempty : (javaFilesOf fs).isEmpty
  · rw [if_pos hempty]
    simp [List.isEmpty_iff.mp hempty]
  · rw [if_neg hempty]
    rw [foldl_vStep]
    simp only [Bool.false_or, Nat.zero_add]
    have hcnt :
        (((javaFilesOf fs).take 100).any fileHasNaming &&
            decide (2 ≤ ((javaFilesOf fs).take 100).countP fileHasNaming)) =
          decide (2 ≤ ((javaFilesOf fs).take 100).countP fileHasNaming) := by
      by_cases h2 : 2 ≤ ((javaFilesOf fs).take 100).countP fileHasNaming
      · rw [any_of_one_le_countP fileHasNaming _ (by omega)]
        simp
      · simp [h2]
    rw [not_isEmpty_filter_eq_any, hcnt]
    constructor
    · intro h
      refine ⟨fun hnil => hempty (by simp [hnil]), ?_⟩
      by_cases hb : (fs.any (fun f => f.path == "ejb-jar.xml") ||
          ((javaFilesOf fs).take 100).any fileHasAnn ||
          decide (2 ≤ ((javaFilesOf fs).take 100).countP fileHasNaming)) = true
      · rcases Bool.or_eq_true_iff.mp hb with hb1 | hb2
        · rcases Bool.or_eq_true_iff.mp hb1 with hx | hy
          · exact Or.inl hx
          · exact Or.inr (Or.inl hy)
        · exact Or.inr (Or.inr (by simpa using hb2))
      · rw [if_neg hb] at h
        simp at h
    · rintro ⟨-, hor⟩
      have hb : (fs.any (fun f => f.path == "ejb-jar.xml") ||
          ((javaFilesOf fs).take 100).any fileHasAnn ||
          decide (2 ≤ ((javaFilesOf fs).take 100).countP fileHasNaming)) = true := by
        rcases hor with h | h | h
        · simp [h]
        · simp [h]
        · simp [h]
      rw [if_pos hb]

/-- A project without Java files parses to the initial (empty) state. -/
theorem parse_no_java (fs : FS) (h : javaFilesOf fs = []) : parse fs initState = initState := by
  have hse : symEntries fs = [] := by unfold symEntries; rw [h]; rfl
  show findRelatedClasses (linkBeans fs (identifyInterfaces fs (analyzeImports fs
    (buildSymbolTable fs initState)))) = initState
  have h1 : buildSymbolTable fs initState = initState := by
    unfold buildSymbolTable
    rw [hse]
    rfl
  rw [h1]
  rfl

/-! ## Super-Context assembly lemmas (C6, C8, C9) -/

theorem codeCollectStep_cases (fs : FS) (tbl : List (String × String))
    (d : List (String × String)) (n : String) :
    codeCollectStep fs tbl d n = d ∨ ∃ v, codeCollectStep fs tbl d n = upd d n v := by
  unfold codeCollectStep
  cases hl : dlookup tbl n with
  | none => simp [hl]
  | some p =>
    simp only [hl]
    cases hr : readFileContent fs p with
    | none => simp [hr]
    | some code =>
      simp only [hr]
      by_cases h : code = ""
      · simp [h]
      · right
        refine ⟨code, ?_⟩
        simp [h]

theorem codeCollectStep_bad (fs : FS) (tbl : List (String × String))
    (d : List (String × String)) (n : String)
    (hbad : dlookup tbl n = none ∨ ∃ p, dlookup tbl n = some p ∧ readFS fs p = none) :
    codeCollectStep fs tbl d n = d := by
  unfold codeCollectStep
  rcases hbad with hb | ⟨p, hp, hr⟩
  · simp only [hb]
  · simp only [hp, show readFileContent fs p = none from hr]

theorem mem_dkeys_upd_cases {α : Type} (d : List (String × α)) (k : String) (v : α)
    (k' : String) (h : k' ∈ dkeys (upd d k v)) : k' ∈ dkeys d ∨ k' = k := by
  by_cases hk : k ∈ dkeys d
  · rw [dkeys_upd_of_mem d k v hk] at h
    exact Or.inl h
  · rw [dkeys_upd_of_not_mem d k v hk] at h
    rcases List.mem_append.mp h with h | h
    · exact Or.inl h
    · exact Or.inr (by simpa using h)

theorem upd_length_le {α : Type} (d : List (String × α)) (k : String) (v : α) :
    (upd d k v).length ≤ d.length + 1 := by
  unfold upd
  by_cases h : d.any (fun kv => kv.1 == k) <;> simp [h]

theorem fold_codeCollect_keys (fs : FS) (tbl : List (String × String)) (ns : List String) :
    ∀ (d0 : List (String × String)) (k : String),
    k ∈ dkeys (ns.foldl (codeCollectStep fs tbl) d0) → k ∈ dkeys d0 ∨ k ∈ ns := by
  induction ns with
  | nil => intro d0 k h; exact Or.inl h
  | cons n t ih =>
    intro d0 k h
    rw [List.foldl_cons] at h
    rcases ih (codeCollectStep fs tbl d0 n) k h with h1 | h1
    · rcases codeCollectStep_cases fs tbl d0 n with hc | ⟨v, hc⟩
      · rw [hc] at h1
        exact Or.inl h1
      · rw [hc] at h1
        rcases mem_dkeys_upd_cases d0 n v k h1 with h2 | h2
        · exact Or.inl h2
        · exact Or.inr (by simp [h2])
    · exact Or.inr (by simp [h1])

theorem fold_codeCollect_length (fs : FS) (tbl : List (String × String)) (ns : List String) :
    ∀ (d0 : List (String × String)),
    (ns.foldl (codeCollectStep fs tbl) d0).length ≤ d0.length + ns.length := by
  induction ns with
  | nil => intro d0; simp
  | cons n t ih =>
    intro d0
    rw [List.foldl_cons]
    have h1 := ih (codeCollectStep fs tbl d0 n)
    have h2 : (codeCollectStep fs tbl d0 n).length ≤ d0.length + 1 := by
      rcases codeCollectStep_cases fs tbl d0 n with hc | ⟨v, hc⟩
      · rw [hc]; omega
      · rw [hc]; exact upd_length_le d0 n v
    simp only [List.length_cons]
    omega

theorem fold_codeCollect_bad_not_mem (fs : FS) (tbl : List (String × String))
    (ns : List String) (n : String)
    (hbad : dlookup tbl n = none ∨ ∃ p, dlookup tbl n = some p ∧ readFS fs p = none) :
    ∀ (d0 : List (String × String)),
    ¬ n ∈ dkeys d0 → ¬ n ∈ dkeys (ns.foldl (codeCollectStep fs tbl) d0) := by
  induction ns with
  | nil => intro d0 h; exact h
  | cons m t ih =>
    intro d0 h
    rw [List.foldl_cons]
    apply ih
    by_cases hm : m = n
    · rw [hm, codeCollectStep_bad fs tbl d0 n hbad]
      exact h
    · rcases codeCollectStep_cases fs tbl d0 m with hc | ⟨v, hc⟩
      · rw [hc]; exact h
      · rw [hc]
        intro hmem
        rcases mem_dkeys_upd_cases d0 m v n hmem with h2 | h2
        · exact h h2
        · exact hm h2.symm

theorem foldl_build_append (fs : FS) (tbl : List (String × String))
    (recs : List EJBInterfaceInfo) :
    ∀ acc : List SuperContext,
    recs.foldl (fun acc r =>
        match buildSuperContext fs tbl r with
        | some sc => acc ++ [sc]
        | none => acc) acc =
      acc ++ recs.filterMap (buildSuperContext fs tbl) := by
  induction recs with
  | nil => intro acc; simp
  | cons r t ih =>
    intro acc
    rw [List.foldl_cons, List.filterMap_cons]
    cases h : buildSuperContext fs tbl r with
    | none =>
      simp only [h]
      exact ih acc
    | some sc =>
      simp only [h]
      rw [ih (acc ++ [sc])]
      simp

theorem buildAll_eq_filterMap (fs : FS) (tbl : List (String × String))
    (recs : List EJBInterfaceInfo) :
    buildAllSuperContexts fs tbl recs = recs.filterMap (buildSuperContext fs tbl) := by
  unfold buildAllSuperContexts
  rw [foldl_build_append]
  rfl

/-! ## Non-empty return types (C10) -/

theorem pyOrStr_void_ne_empty (o : Option String) : pyOrStr o "void" ≠ "" := by
  cases o with
  | none => decide
  | some s =>
    show (if s = "" then "void" else s) ≠ ""
    by_cases h : s = ""
    · rw [if_pos h]; decide
    · rw [if_neg h]; exact h

theorem extractMethodsGo_succ (f : Nat) (prevW : Bool) (l : List Char) :
    extractMethodsGo (f + 1) prevW l =
      match matchMethodAt prevW l with
      | some (g1, nm, ps, rest) =>
        let ms := extractMethodsGo f false rest
        if controlFlowNames.contains (String.mk nm) then ms
        else
          { return_type := pyOrStr (g1.map String.mk) "void", name := String.mk nm,
            parameters := String.mk (stripL ps) } :: ms
      | none =>
        match l with
        | [] => []
        | c :: t => extractMethodsGo f (isWordChar c) t := rfl

theorem extractMethodsGo_rt_ne (fuel : Nat) : ∀ (prevW : Bool) (l : List Char),
    ∀ m ∈ extractMethodsGo fuel prevW l, m.return_type ≠ "" := by
  induction fuel with
  | zero => intro _ _ m hm; simp [extractMethodsGo] at hm
  | succ f ih =>
    intro prevW l m hm
    rw [extractMethodsGo_succ] at hm
    cases hmt : matchMethodAt prevW l with
    | some res =>
      obtain ⟨g1, nm, ps, rest⟩ := res
      simp only [hmt] at hm
      by_cases hkw : controlFlowNames.contains (String.mk nm)
      · simp only [hkw, if_true] at hm
        exact ih false rest m hm
      · simp only [hkw, Bool.false_eq_true, if_false, List.mem_cons] at hm
        rcases hm with hm | hm
        · rw [hm]
          exact pyOrStr_void_ne_empty (g1.map String.mk)
        · exact ih false rest m hm
    | none =>
      simp only [hmt] at hm
      cases l with
      | nil => simp at hm
      | cons c t => exact ih (isWordChar c) t m hm

/-! ## Concrete scenarios and claim-side reference definitions -/

/-! ## Claim theorems -/

set_option maxRecDepth 40000 in
/-- Claim C1: for a project directory containing exactly `UserServiceRemote.java`
(an interface with no annotations and the single method `String getUser(int id)`)
and `UserServiceBean.java` (a class implementing it), a full `parse()` run
produces exactly one `InterfaceRecord`, with category Remote,
`linkedBeanClassName = "UserServiceBean"`, and method signatures
`[{String, getUser, int id}]`. -/
theorem C1_end_to_end_scenario_A :
    (parse fsC1 initState).interfaces.map
        (fun r => (r.interface_name, r.interface_type, r.bean_class, r.methods)) =
      [("UserServiceRemote", "Remote", some "UserServiceBean",
        [{ return_type := "String", name := "getUser", parameters := "int id" }])] := by
  decide

/-- Claim C2, counterexample: the interface `FooRemote` annotated `@Local` is
retained as an EJB candidate; the claim's rule (name substring checked
alongside the annotations) assigns Remote, but the code assigns Local, because
the annotation cascade takes precedence over any name substring. -/
theorem C2_counterexample :
    isEjbCandidate ["@Local"] "FooRemote" = true ∧
    claimC2Category ["@Local"] "FooRemote" = "Remote" ∧
    interfaceTypeOf ["@Local"] "FooRemote" = "Local" := by
  decide

/-- Claim C2, amended: the classifier assigns the category by this rule:
Remote if any annotation contains "Remote"; otherwise Local if any annotation
contains "Local"; otherwise, if the name matches one of the five
naming-convention patterns, Remote/Local when the name contains that
substring and Business otherwise; otherwise Unknown.  In particular an
interface named `FooRemote` with no annotations gets category Remote. -/
theorem C2_category_rule_amended :
    (∀ (anns : List String) (name : String),
      interfaceTypeOf anns name = codeCategoryRule anns name) ∧
    interfaceTypeOf [] "FooRemote" = "Remote" :=
  ⟨fun anns name => interfaceTypeOf_eq_rule anns name, by decide⟩

/-- Claim C3, counterexample: a method return type whose simple name contains
"Entity" is not added to `relatedEntityNames` (the method loop only performs
the DTO check), although the same name arriving as an import is added. -/
theorem C3_counterexample :
    strContains "CustomerEntity" "Entity" = true ∧
    (relateRec [] rC3).related_entities = [] ∧
    (relateRec ["com.app.CustomerEntity"] rC3).related_entities = ["CustomerEntity"] := by
  decide

/-- Claim C3, amended: the Entity list is fed exclusively from the file's
imports — a name is in `relatedEntityNames` after the pass iff it was already
there or an import's simple name matching an Entity keyword; method return
and parameter types feed only the DTO list. -/
theorem C3_relatedness_amended :
    ∀ (imps : List String) (r : EJBInterfaceInfo) (n : String),
      (n ∈ (relateRec imps r).related_entities ↔
        n ∈ r.related_entities ∨ n ∈ importEntityNames imps) ∧
      (n ∈ (relateRec imps r).related_dtos ↔
        n ∈ r.related_dtos ∨ n ∈ importDtoNames imps ∨
          n ∈ r.methods.flatMap methodDtoNames) := by
  intro imps r n
  constructor
  · rw [relateRec_entities]
    exact mem_addAll _ _ _
  · rw [relateRec_dtos]
    have h := mem_addAll (importDtoNames imps ++ r.methods.flatMap methodDtoNames)
      r.related_dtos n
    rw [List.mem_append] at h
    tauto

set_option maxRecDepth 40000 in
/-- Claim C4, counterexample: a second `parse()` on the same parser state does
not reproduce the interface list — it appends a duplicate copy. -/
theorem C4_counterexample :
    (parse fsC4 (parse fsC4 initState)).interfaces ≠ (parse fsC4 initState).interfaces := by
  decide

/-- Claim C4, amended: re-running `parse()` reproduces the SymbolTable and the
ImportMap exactly (those passes are idempotent), but the interface list
accumulates: the second run yields the first run's list concatenated with a
duplicate of itself. -/
theorem C4_second_parse_amended :
    ∀ fs : FS,
      (parse fs (parse fs initState)).symbol_table = (parse fs initState).symbol_table ∧
      (parse fs (parse fs initState)).all_imports = (parse fs initState).all_imports ∧
      (parse fs (parse fs initState)).interfaces =
        (parse fs initState).interfaces ++ (parse fs initState).interfaces :=
  parse_twice_effect

/-- Claim C5: bean linking probes the fixed ordered candidate list
(`<Name>Bean`, `<Name>Impl`, `<Name>EJB`, then the suffix substitutions) and
the first candidate present in the symbol table wins; for an interface
`OrderService` with `OrderServiceImpl` in the symbol table (and no
`OrderServiceBean`), the linked bean is `OrderServiceImpl` for every symbol
table — hence regardless of file scan order. -/
theorem C5_order_service_linking :
    ∀ (fs : FS) (tbl : List (String × String)) (r : EJBInterfaceInfo),
      r.interface_name = "OrderService" →
      dlookup tbl "OrderServiceBean" = none →
      (∃ p, dlookup tbl "OrderServiceImpl" = some p) →
      (linkRec fs tbl r).bean_class = some "OrderServiceImpl" := by
  intro fs tbl r hn h1 h2
  obtain ⟨p, hp2⟩ := h2
  rw [linkRec_bean_class, hn]
  have hcand : beanCandidates "OrderService" =
      ["OrderServiceBean", "OrderServiceImpl", "OrderServiceEJB", "OrderService",
       "OrderService", "OrderServiceImpl", "OrderService"] := by decide
  have hprobe : probeNaming tbl "OrderService" = some "OrderServiceImpl" := by
    unfold probeNaming
    rw [hcand, List.find?_cons_of_neg _ (by simp [h1]), List.find?_cons_of_pos _ (by simp [hp2])]
  simp [linkBeanName, hprobe]

/-- Claim C5, witness: the scenario instantiated with a concrete symbol table. -/
theorem C5_witness :
    (linkRec [] [("OrderService", "OrderService.java"),
        ("OrderServiceImpl", "OrderServiceImpl.java")] rC5).bean_class =
      some "OrderServiceImpl" :=
  C5_order_service_linking []
    [("OrderService", "OrderService.java"), ("OrderServiceImpl", "OrderServiceImpl.java")] rC5
    rfl (by decide) ⟨"OrderServiceImpl.java", by decide⟩

/-- Claim C6: in every assembled Super-Context the keys of `dtoCodes` are
related DTO names (and likewise for entities), so the code bundles are never
larger than the related-name lists, and a related name that is absent from
the symbol table or whose file cannot be read never appears among the keys. -/
theorem C6_bundle_subset :
    ∀ (fs : FS) (tbl : List (String × String)) (r : EJBInterfaceInfo) (sc : SuperContext),
      buildSuperContext fs tbl r = some sc →
      (∀ k ∈ dkeys sc.dto_codes, k ∈ r.related_dtos) ∧
      sc.dto_codes.length ≤ r.related_dtos.length ∧
      (∀ k ∈ dkeys sc.entity_codes, k ∈ r.related_entities) ∧
      sc.entity_codes.length ≤ r.related_entities.length ∧
      (∀ n ∈ r.related_dtos,
        (dlookup tbl n = none ∨ ∃ p, dlookup tbl n = some p ∧ readFS fs p = none) →
        ¬ n ∈ dkeys sc.dto_codes) := by
  intro fs tbl r sc h
  unfold buildSuperContext at h
  cases hr : readFileContent fs r.file_path with
  | none => simp [hr] at h
  | some icode =>
    simp only [hr] at h
    by_cases hic : icode = ""
    · rw [if_pos hic] at h
      exact absurd h (by simp)
    · rw [if_neg hic] at h
      have hsc := (Option.some.inj h).symm
      subst hsc
      refine ⟨?_, ?_, ?_, ?_, ?_⟩
      · intro k hk
        rcases fold_codeCollect_keys fs tbl r.related_dtos [] k hk with h0 | h0
        · simp [dkeys] at h0
        · exact h0
      · have := fold_codeCollect_length fs tbl r.related_dtos []
        simpa using this
      · intro k hk
        rcases fold_codeCollect_keys fs tbl r.related_entities [] k hk with h0 | h0
        · simp [dkeys] at h0
        · exact h0
      · have := fold_codeCollect_length fs tbl r.related_entities []
        simpa using this
      · intro n _ hbad
        exact fold_codeCollect_bad_not_mem fs tbl r.related_dtos n hbad [] (by simp [dkeys])

/-- Claim C6, witness: concrete bundle with one resolvable and one
unresolvable DTO name. -/
theorem C6_witness :
    scB.dto_codes.length ≤ rB.related_dtos.length ∧ ¬ "MissingDTO" ∈ dkeys scB.dto_codes :=
  ⟨(C6_bundle_subset fsB tblB rB scB (by decide)).2.1,
   (C6_bundle_subset fsB tblB rB scB (by decide)).2.2.2.2 "MissingDTO" (by decide)
     (Or.inl (by decide))⟩

/-- Claim C7, counterexample: a project whose single Java file declares two
naming-convention interfaces satisfies the claim's validity condition (at
least two matching interfaces in the sample), yet the validator rejects it —
the code counts files containing a match, not interface declarations. -/
theorem C7_counterexample :
    claimC7Valid fsC7 = true ∧ (validateEjbProject fsC7).1 = false := by
  decide

/-- Claim C7, amended: for an existing project, the validator accepts iff
there is at least one Java file and (an `ejb-jar.xml` is present, or one of
the five Enterprise-Bean annotations occurs in a sampled file, or at least
two of the first 100 Java files each contain a naming-convention interface
declaration); a project with zero Java files is rejected with the
"no Java files" message, and `parse()` on it returns an empty symbol table
and an empty interface list. -/
theorem C7_validator_amended :
    ∀ fs : FS,
      ((validateEjbProject fs).1 = true ↔
        javaFilesOf fs ≠ [] ∧
          (fs.any (fun f => f.path == "ejb-jar.xml") = true ∨
            ((javaFilesOf fs).take 100).any fileHasAnn = true ∨
            2 ≤ ((javaFilesOf fs).take 100).countP fileHasNaming)) ∧
      (javaFilesOf fs = [] →
        validateEjbProject fs = (false, noJavaMsg) ∧
        (parse fs initState).symbol_table = [] ∧
        (parse fs initState).interfaces = []) := by
  intro fs
  refine ⟨validate_fst_iff fs, fun h => ⟨?_, ?_, ?_⟩⟩
  · unfold validateEjbProject
    rw [if_pos (List.isEmpty_iff.mpr h)]
  · rw [parse_no_java fs h]
    rfl
  · rw [parse_no_java fs h]
    rfl

/-- Claim C7, witness: the empty project is rejected with the "no Java files"
message and parses to the empty state. -/
theorem C7_witness :
    validateEjbProject ([] : FS) = (false, noJavaMsg) ∧
    (parse ([] : FS) initState).symbol_table = [] ∧
    (parse ([] : FS) initState).interfaces = [] :=
  (C7_validator_amended []).2 rfl

/-- Claim C8: in every assembled Super-Context the metadata record is
consistent with the bundle — `dto_count` and `entity_count` equal the sizes
of the respective code maps, `method_count` equals the number of extracted
method signatures, `has_bean` holds exactly when bean code is present in the
bundle, and `bean_class` is the empty string when no bean was linked. -/
theorem C8_metadata_consistent :
    ∀ (fs : FS) (tbl : List (String × String)) (r : EJBInterfaceInfo) (sc : SuperContext),
      buildSuperContext fs tbl r = some sc →
      sc.metadata.dto_count = sc.dto_codes.length ∧
      sc.metadata.entity_count = sc.entity_codes.length ∧
      sc.metadata.method_count = r.methods.length ∧
      sc.metadata.has_bean = sc.bean_code.isSome ∧
      (r.bean_class = none → sc.metadata.bean_class = "") := by
  intro fs tbl r sc h
  unfold buildSuperContext at h
  cases hr : readFileContent fs r.file_path with
  | none => simp [hr] at h
  | some icode =>
    simp only [hr] at h
    by_cases hic : icode = ""
    · rw [if_pos hic] at h
      exact absurd h (by simp)
    · rw [if_neg hic] at h
      have hsc := (Option.some.inj h).symm
      subst hsc
      refine ⟨rfl, rfl, rfl, rfl, fun hb => ?_⟩
      show pyOrStr r.bean_class "" = ""
      rw [hb]
      rfl

/-- Claim C8, witness: the concrete bundle `scB`. -/
theorem C8_witness :
    scB.metadata.dto_count = scB.dto_codes.length ∧
    scB.metadata.has_bean = scB.bean_code.isSome ∧
    scB.metadata.bean_class = "" :=
  ⟨(C8_metadata_consistent fsB tblB rB scB (by decide)).1,
   (C8_metadata_consistent fsB tblB rB scB (by decide)).2.2.2.1,
   (C8_metadata_consistent fsB tblB rB scB (by decide)).2.2.2.2 rfl⟩

/-- Claim C9: if an interface's own source file cannot be read, or reads as
the empty string, no Super-Context is produced for it — the builder returns
nothing and the interface is omitted from the returned bundle list (which
keeps exactly the successfully built bundles, in order). -/
theorem C9_unreadable_interface_omitted :
    ∀ (fs : FS) (tbl : List (String × String)) (r : EJBInterfaceInfo)
      (recs : List EJBInterfaceInfo),
      (readFS fs r.file_path = none ∨ readFS fs r.file_path = some "") →
      buildSuperContext fs tbl r = none ∧
      buildAllSuperContexts fs tbl recs = recs.filterMap (buildSuperContext fs tbl) := by
  intro fs tbl r recs hbad
  refine ⟨?_, buildAll_eq_filterMap fs tbl recs⟩
  unfold buildSuperContext
  rcases hbad with hb | hb
  · rw [show readFileContent fs r.file_path = none from hb]
  · rw [show readFileContent fs r.file_path = some "" from hb]
    rfl

/-- Claim C9, witness: an unreadable interface file yields no bundle, and the
bundle list for that single record is empty. -/
theorem C9_witness :
    buildSuperContext fsC9 [] rC9 = none ∧
    buildAllSuperContexts fsC9 [] [rC9] = [rC9].filterMap (buildSuperContext fsC9 []) :=
  C9_unreadable_interface_omitted fsC9 [] rC9 [rC9] (Or.inl (by decide))

/-- Claim C10: every extracted method signature has a non-empty return type;
when the permissive pattern matches a declaration with no return-type token
(a constructor-like `Name(...)` match), the recorded return type is "void". -/
theorem C10_return_type_never_empty :
    (∀ content : String,
      (extractMethods content).all (fun m => !(m.return_type = "")) = true) ∧
    extractMethods "UserService(int id);" =
      [{ return_type := "void", name := "UserService", parameters := "int id" }] := by
  constructor
  · intro content
    rw [List.all_eq_true]
    intro m hm
    simpa using extractMethodsGo_rt_ne (content.data.length + 1) false content.data m hm
  · decide
